import Mathlib

/-!
Verification of the GBBS Pro message database recovery engine
(gbbsmsgtool.py): the 7-bit packed-text codec, the header parser, the
message-start heuristic, the chain follower and the bulletin/email
scanners, embedded shallowly over byte buffers modelled as `List Nat`.

Decoded text is modelled as a list of Unicode code points: the ascii
decoder with replacement maps a byte below 128 to itself and any other
byte to 65533 (the replacement character), and the subsequent
carriage-return substitution maps 13 to 10.

The date extractor (`parse_date` in the source) builds on a regular
expression engine and calendar validation that are external to the
recovery algorithm; scanners are therefore parameterised by an abstract
`parseDate : List Nat -> Option Nat` returning an abstract timestamp,
exactly at the single point where the source calls `parse_date`.
-/

/-- Little-endian 16-bit read: `struct.unpack(lt-H, data[off:off+2])[0]`.
The fallback 0 is returned on a short slice, where Python would raise;
every use in the source is guarded by a bounds check that makes the
slice two bytes long (`unpackLE16opt` below models the raising read). -/
def unpackLE16 (data : List Nat) (off : Nat) : Nat :=
  match (data.drop off).take 2 with
  | [a, b] => a + 256 * b
  | _ => 0

/-- Checked variant of `unpackLE16`: `none` exactly when Python
`struct.unpack` would raise on a slice shorter than two bytes. -/
def unpackLE16opt (data : List Nat) (off : Nat) : Option Nat :=
  match (data.drop off).take 2 with
  | [a, b] => some (a + 256 * b)
  | _ => none

/-- Models `bytes(result).decode(ascii, errors=replace).replace(CR, LF)`:
bytes at least 128 become the replacement character 65533, carriage
returns (13) become line feeds (10). -/
def toText (result : List Nat) : List Nat :=
  result.map (fun c => if 128 ≤ c then 65533 else if c = 13 then 10 else c)

/-- One iteration of the `decode_7bit` while-loop body over a 7-byte
group: the running `char8` fold together with the low-7-bit characters,
followed by the final right shift of `char8`. -/
def decode7Group (bytes7 : List Nat) : List Nat :=
  let t := bytes7.foldl
    (fun (p : Nat × List Nat) b => ((p.1 >>> 1) ||| (b &&& 128), p.2 ++ [b &&& 127]))
    (0, [])
  t.2 ++ [t.1 >>> 1]

/-- The inner `for c in chars` loop of `decode_7bit`: appends characters
to `result`, signalling an early return (`true`) when `stop_at_null`
is set and a zero character is met. -/
def appendChars (stopAtNull : Bool) : List Nat → List Nat → List Nat × Bool
  | [], result => (result, false)
  | c :: cs, result =>
    if stopAtNull ∧ c = 0 then (result, true)
    else appendChars stopAtNull cs (result ++ [c])

/-- The `while i + 6 < len(compressed_data)` loop of `decode_7bit`:
consumes 7-byte groups, appending 8 characters per group, discarding
any remainder shorter than 7 bytes. -/
def decode7Loop (stopAtNull : Bool) : List Nat → List Nat → List Nat
  | b0 :: b1 :: b2 :: b3 :: b4 :: b5 :: b6 :: rest, result =>
    match appendChars stopAtNull (decode7Group [b0, b1, b2, b3, b4, b5, b6]) result with
    | (r, true) => toText r
    | (r, false) => decode7Loop stopAtNull rest r
  | _, result => toText result

/-- Embeds `decode_7bit(compressed_data, stop_at_null)`. -/
def decode_7bit (compressedData : List Nat) (stopAtNull : Bool) : List Nat :=
  decode7Loop stopAtNull compressedData []

/-- Python `str` whitespace test restricted to the code points the
decoder can output (0..127 and 65533): tab through carriage return,
the file/group/record/unit separators 28..31, and the space. -/
def pyIsSpace (c : Nat) : Bool :=
  [9, 10, 11, 12, 13, 28, 29, 30, 31, 32].contains c

/-- Python `str.strip()`: removes leading and trailing whitespace. -/
def pyStrip (l : List Nat) : List Nat :=
  ((l.dropWhile pyIsSpace).reverse.dropWhile pyIsSpace).reverse

/-- Python `str.split(sep)` on a single-character separator: splits at
every occurrence, keeping empty fragments. -/
def splitOnByte (sep : Nat) : List Nat → List (List Nat)
  | [] => [[]]
  | c :: rest =>
    match splitOnByte sep rest with
    | [] => [[]]
    | g :: gs => if c = sep then [] :: g :: gs else (c :: g) :: gs

/-- Decimal digit test on a code point. -/
def isDigitByte (c : Nat) : Bool := 48 ≤ c && c ≤ 57

/-- Models the regex match of `^\d+,` at the start of a line: one or
more digits followed directly by a comma (44). -/
def digitsCommaStart (l : List Nat) : Bool :=
  let ds := l.takeWhile isDigitByte
  !ds.isEmpty && ((l.drop ds.length).head? == some 44)

/-- Python substring containment `pat in l`. -/
def listContainsSub (pat : List Nat) : List Nat → Bool
  | [] => pat.isEmpty
  | c :: rest => pat.isPrefixOf (c :: rest) || listContainsSub pat rest

/-- Embeds `is_message_start(decoded_text)`: at least 4 lines, lines 1
and 2 start with digits-comma, line 3 mentions Date (68,97,116,101)
together with a colon (58) or an arrow (45,62). -/
def is_message_start (decodedText : List Nat) : Bool :=
  let lines := splitOnByte 10 decodedText
  if lines.length < 4 then false
  else if !(digitsCommaStart (lines.getD 1 []) && digitsCommaStart (lines.getD 2 [])) then
    false
  else if !(listContainsSub [68, 97, 116, 101] (lines.getD 3 []) &&
            ((lines.getD 3 []).contains 58 || listContainsSub [45, 62] (lines.getD 3 []))) then
    false
  else true

/-- The parsed MSGINFO header of `read_msginfo`. -/
structure MsgInfo where
  bitmapBlocks : Nat
  dirBlocks : Nat
  usedBlocks : Nat
  msgCount : Nat
  newMsgNum : Nat
  bitmapOffset : Nat
  dirOffset : Nat
  dataOffset : Nat
  maxDirEntries : Nat
deriving DecidableEq, Repr

/-- Embeds `read_msginfo(data)`: `none` when fewer than 8 header bytes
are available. -/
def read_msginfo (data : List Nat) : Option MsgInfo :=
  if data.length < 8 then none
  else some {
    bitmapBlocks := data.getD 0 0
    dirBlocks := data.getD 1 0
    usedBlocks := unpackLE16 data 2
    msgCount := unpackLE16 data 4
    newMsgNum := unpackLE16 data 6
    bitmapOffset := 8
    dirOffset := 8 + data.getD 0 0 * 128
    dataOffset := 8 + data.getD 0 0 * 128 + data.getD 1 0 * 128
    maxDirEntries := data.getD 1 0 * 128 / 4 }

/-- Embeds `detect_format(data)`: true exactly for the email layout,
signalled by the first byte equalling 4. -/
def detect_format (data : List Nat) : Bool :=
  data.getD 0 0 == 4

/-- Truncation of the concatenated message at the first embedded null
byte, as done at the end of `follow_chain_with_tracking`. -/
def truncAtNull (l : List Nat) : List Nat :=
  match l.findIdx? (· == 0) with
  | some p => l.take p
  | none => l

/-- The mutable locals of the `follow_chain_with_tracking` while-loop.
`visitList` is ghost instrumentation recording the successive values of
`current_block` that pass the loop guards, in visit order; the source
tracks the same blocks as the sets `visited` and `blocks_used`. -/
structure FollowState where
  messageParts : List (List Nat)
  current : Nat
  visited : Finset Nat
  blocksUsed : Finset Nat
  firstBlock : Bool
  visitList : List Nat
deriving DecidableEq

/-- Outcome of one loop-body execution: `halt` for a break out of the
loop, `next` for proceeding to another iteration. -/
inductive StepRes where
  | halt (st : FollowState)
  | next (st : FollowState)
deriving DecidableEq

/-- One execution of the body of the `follow_chain_with_tracking`
while-loop, to be run under the loop guard
`current_block != 0 and current_block not in visited`. -/
def followStep (data : List Nat) (totalBlocks : Int) (stopBlocks : Finset Nat)
    (dataOffset : Nat) (st : FollowState) : StepRes :=
  if st.current ∈ stopBlocks then .halt st
  else
    let st1 : FollowState :=
      { st with visited := insert st.current st.visited
                blocksUsed := insert st.current st.blocksUsed
                visitList := st.visitList ++ [st.current] }
    let blockOffset := dataOffset + (st1.current - 1) * 128
    if blockOffset + 128 > data.length ∨ (st1.current : Int) > totalBlocks then .halt st1
    else
      let blockData := (data.drop blockOffset).take 126
      let nextBlock := unpackLE16 data (blockOffset + 126)
      let decoded := decode_7bit blockData false
      if st1.firstBlock = false ∧ is_message_start decoded then .halt st1
      else
        let decoded2 := if st1.firstBlock = false then decoded.dropWhile (· == 0) else decoded
        let st2 : FollowState :=
          { st1 with messageParts := st1.messageParts ++ [decoded2], firstBlock := false }
        if nextBlock = 0 then .halt st2
        else if nextBlock = st2.current then
          let ns := st2.current + 1
          if (ns : Int) ≤ totalBlocks ∧ ns ∉ stopBlocks then
            let nso := dataOffset + (ns - 1) * 128
            if nso + 128 ≤ data.length then
              let nsDecoded := decode_7bit ((data.drop nso).take 126) false
              if !is_message_start nsDecoded ∧ 10 < (pyStrip nsDecoded).length then
                .next { st2 with current := ns }
              else .halt st2
            else .halt st2
          else .halt st2
        else if nextBlock ∈ st2.visited then .halt st2
        else .next { st2 with current := nextBlock }

/-- The `follow_chain_with_tracking` while-loop: runs `followStep`
under the loop guard, with an explicit fuel bounding the number of
iterations (total correctness of the chosen fuel is proved below). -/
def followAux (data : List Nat) (totalBlocks : Int) (stopBlocks : Finset Nat)
    (dataOffset : Nat) : Nat → FollowState → FollowState
  | 0, st => st
  | fuel + 1, st =>
    if st.current ≠ 0 ∧ st.current ∉ st.visited then
      match followStep data totalBlocks stopBlocks dataOffset st with
      | .halt st2 => st2
      | .next st2 => followAux data totalBlocks stopBlocks dataOffset fuel st2
    else st

/-- Return value of `follow_chain_with_tracking`: the truncated message
text, the set of consumed blocks, and the ghost visit order. -/
structure FollowResult where
  message : List Nat
  blocksUsed : Finset Nat
  visitList : List Nat
deriving DecidableEq

/-- Initial loop state of `follow_chain_with_tracking`. -/
def followInit (startBlock : Nat) : FollowState :=
  { messageParts := [], current := startBlock, visited := ∅, blocksUsed := ∅
    firstBlock := true, visitList := [] }

/-- Packaging of the final loop state into the returned pair. -/
def followFinish (st : FollowState) : FollowResult :=
  { message := truncAtNull st.messageParts.flatten
    blocksUsed := st.blocksUsed
    visitList := st.visitList }

/-- Embeds `follow_chain_with_tracking(data, start_block, total_blocks,
stop_blocks, data_offset)`. Fuel `total_blocks.toNat + 1` suffices: the
loop visits at most `total_blocks` in-range blocks plus at most one
final out-of-range block (proved below). -/
def follow_chain_with_tracking (data : List Nat) (startBlock : Nat) (totalBlocks : Int)
    (stopBlocks : Finset Nat) (dataOffset : Nat) : FollowResult :=
  followFinish (followAux data totalBlocks stopBlocks dataOffset (totalBlocks.toNat + 1)
    (followInit startBlock))

/-- Total block count of the data area, `(len(data) - data_offset) // 128`
with Python floor semantics (negative when the data offset exceeds the
file length). -/
def scanTotalBlocks (data : List Nat) (mi : MsgInfo) : Int :=
  ((data.length : Int) - (mi.dataOffset : Int)).fdiv 128

/-- An entry of `active_messages` built by phase 1 of
`scan_database_bulletin`. -/
structure ActiveMsg where
  entry : Nat
  block : Nat
  message : List Nat
  date : Option Nat
deriving DecidableEq

/-- An entry of `deleted_messages` built by phase 2. -/
structure DeletedMsg where
  block : Nat
  message : List Nat
  date : Option Nat
deriving DecidableEq

/-- An entry of `orphaned_messages` built by phase 3 (the source stores
no date for orphans). -/
structure OrphanMsg where
  block : Nat
  message : List Nat
deriving DecidableEq

/-- Phase 1 loop of `scan_database_bulletin` over directory entry
numbers: a directory read past the file length breaks out of the loop
(the second source break, on a short entry slice, is subsumed by the
first); entries that are zero or beyond `total_blocks` are skipped;
otherwise the chain is followed with the accumulated claim set and its
consumed blocks are merged. -/
def phase1Go (data : List Nat) (parseDate : List Nat → Option Nat) (dirOffset dataOffset : Nat)
    (totalBlocks : Int) : List Nat → Finset Nat → List ActiveMsg → List ActiveMsg × Finset Nat
  | [], used, acc => (acc, used)
  | e :: rest, used, acc =>
    let eo := dirOffset + e * 4
    if eo + 4 > data.length then (acc, used)
    else
      let blockNum := unpackLE16 data (eo + 2)
      if blockNum = 0 then phase1Go data parseDate dirOffset dataOffset totalBlocks rest used acc
      else if (blockNum : Int) > totalBlocks then
        phase1Go data parseDate dirOffset dataOffset totalBlocks rest used acc
      else
        let r := follow_chain_with_tracking data blockNum totalBlocks used dataOffset
        phase1Go data parseDate dirOffset dataOffset totalBlocks rest (used ∪ r.blocksUsed)
          (acc ++ [{ entry := e, block := blockNum, message := r.message
                     date := parseDate r.message }])

/-- Phase 1 of `scan_database_bulletin`, started on an empty claim set. -/
def phase1 (parseDate : List Nat → Option Nat) (data : List Nat) (mi : MsgInfo) :
    List ActiveMsg × Finset Nat :=
  phase1Go data parseDate mi.dirOffset mi.dataOffset (scanTotalBlocks data mi)
    (List.range mi.maxDirEntries) ∅ []

/-- Ascending iteration order over `all_blocks - used_blocks`, the
Python `sorted(unused_blocks)` where `all_blocks` is
`set(range(1, total_blocks + 1))`. -/
def unusedList (totalBlocks : Int) (used : Finset Nat) : List Nat :=
  (List.range' 1 totalBlocks.toNat).filter (fun b => decide (b ∉ used))

/-- The 126 payload bytes of 1-based block `b`,
`data[block_offset : block_offset + 126]`. -/
def blockPayload (data : List Nat) (dataOffset b : Nat) : List Nat :=
  (data.drop (dataOffset + (b - 1) * 128)).take 126

/-- Phase 2 loop of `scan_database_bulletin` over the snapshot of
unused blocks in ascending order: skips blocks claimed meanwhile,
blocks whose 128-byte window passes the file end, and blocks with
fewer than 10 non-null payload bytes or without the message-start
pattern (decoded in stop-at-null mode); otherwise follows the chain,
merging its blocks into both the claim set and `deleted_all_blocks`. -/
def phase2Go (data : List Nat) (parseDate : List Nat → Option Nat) (dataOffset : Nat)
    (totalBlocks : Int) : List Nat → Finset Nat → Finset Nat → List DeletedMsg →
      List DeletedMsg × Finset Nat × Finset Nat
  | [], used, dAll, acc => (acc, used, dAll)
  | b :: rest, used, dAll, acc =>
    if b ∈ used then phase2Go data parseDate dataOffset totalBlocks rest used dAll acc
    else if dataOffset + (b - 1) * 128 + 128 > data.length then
      phase2Go data parseDate dataOffset totalBlocks rest used dAll acc
    else if ((blockPayload data dataOffset b).filter (fun x => decide (x ≠ 0))).length < 10 then
      phase2Go data parseDate dataOffset totalBlocks rest used dAll acc
    else if !is_message_start (decode_7bit (blockPayload data dataOffset b) true) then
      phase2Go data parseDate dataOffset totalBlocks rest used dAll acc
    else
      let r := follow_chain_with_tracking data b totalBlocks used dataOffset
      phase2Go data parseDate dataOffset totalBlocks rest (used ∪ r.blocksUsed)
        (dAll ∪ r.blocksUsed)
        (acc ++ [{ block := b, message := r.message, date := parseDate r.message }])

/-- Phase 2 of `scan_database_bulletin`, resuming from the claim set
left by phase 1; returns (messages, claim set, deleted_all_blocks). -/
def phase2 (parseDate : List Nat → Option Nat) (data : List Nat) (mi : MsgInfo)
    (used : Finset Nat) : List DeletedMsg × Finset Nat × Finset Nat :=
  phase2Go data parseDate mi.dataOffset (scanTotalBlocks data mi)
    (unusedList (scanTotalBlocks data mi) used) used ∅ []

/-- Phase 3 loop of `scan_database_bulletin`: like phase 2 but with no
message-start requirement and no date extraction. -/
def phase3Go (data : List Nat) (dataOffset : Nat) (totalBlocks : Int) :
    List Nat → Finset Nat → List OrphanMsg → List OrphanMsg × Finset Nat
  | [], used, acc => (acc, used)
  | b :: rest, used, acc =>
    if b ∈ used then phase3Go data dataOffset totalBlocks rest used acc
    else if dataOffset + (b - 1) * 128 + 128 > data.length then
      phase3Go data dataOffset totalBlocks rest used acc
    else if ((blockPayload data dataOffset b).filter (fun x => decide (x ≠ 0))).length < 10 then
      phase3Go data dataOffset totalBlocks rest used acc
    else
      let r := follow_chain_with_tracking data b totalBlocks used dataOffset
      phase3Go data dataOffset totalBlocks rest (used ∪ r.blocksUsed)
        (acc ++ [{ block := b, message := r.message }])

/-- Phase 3 of `scan_database_bulletin`, resuming from the claim set
left by phase 2. -/
def phase3 (data : List Nat) (mi : MsgInfo) (used : Finset Nat) :
    List OrphanMsg × Finset Nat :=
  phase3Go data mi.dataOffset (scanTotalBlocks data mi)
    (unusedList (scanTotalBlocks data mi) used) used []

/-- Sort key for messages: Python `x.date if x.date else datetime.min`.
A missing date sorts strictly below every timestamp the date parser can
produce, modelled by 0 with real timestamps shifted up by one. -/
def dateKey (d : Option Nat) : Nat :=
  match d with
  | none => 0
  | some t => t + 1

/-- Insertion step of a stable ascending sort: `x` is placed before the
first element of equal or larger key, preserving the original order of
equal keys as Python `list.sort` does. -/
def insertByKey {α : Type} (key : α → Nat) (x : α) : List α → List α
  | [] => [x]
  | y :: ys => if key x ≤ key y then x :: y :: ys else y :: insertByKey key x ys

/-- Stable ascending sort by key, the Python `list.sort(key=...)`. -/
def sortByKey {α : Type} (key : α → Nat) : List α → List α
  | [] => []
  | x :: xs => insertByKey key x (sortByKey key xs)

/-- The `while next_block != 0 and next_block not in visited` walk of
the reporting-only `active_all_blocks` computation, with explicit fuel
(each iteration adds a fresh block to `visited`; any block surviving
into a further iteration lies inside the file, so `len(data) + 2`
iterations are never exhausted). -/
def activeWalk (data : List Nat) (dataOffset : Nat) :
    Nat → Nat → Finset Nat → Finset Nat → Finset Nat
  | 0, _, _, acc => acc
  | fuel + 1, nextBlock, visited, acc =>
    if nextBlock ≠ 0 ∧ nextBlock ∉ visited then
      let acc2 := insert nextBlock acc
      let bo := dataOffset + (nextBlock - 1) * 128
      if bo + 128 > data.length then acc2
      else activeWalk data dataOffset fuel (unpackLE16 data (bo + 126))
        (insert nextBlock visited) acc2
    else acc

/-- The `active_all_blocks` reporting set: for each active message, its
header block plus every link reachable by re-walking the next pointers,
independent of the claim set. -/
def activeAllOf (data : List Nat) (dataOffset : Nat) (msgs : List ActiveMsg) : Finset Nat :=
  msgs.foldl (fun acc m =>
    let acc1 := insert m.block acc
    let bo := dataOffset + (m.block - 1) * 128
    if bo + 128 ≤ data.length then
      activeWalk data dataOffset (data.length + 2) (unpackLE16 data (bo + 126)) {m.block} acc1
    else acc1) ∅

/-- The result dictionary of `scan_database_bulletin`. -/
structure BulletinScan where
  totalBlocks : Int
  activeAllBlocks : Finset Nat
  deletedAllBlocks : Finset Nat
  allocatedBlocks : Finset Nat
  deletedBlocks : Finset Nat
  orphanedBlocks : Finset Nat
  activeMessages : List ActiveMsg
  deletedMessages : List DeletedMsg
  orphanedMessages : List OrphanMsg
deriving DecidableEq

/-- Embeds `scan_database_bulletin(data)`: the three priority-ordered
phases threaded through one claim set, deleted messages sorted by date,
plus the reporting sets. -/
def scan_database_bulletin (parseDate : List Nat → Option Nat) (data : List Nat) :
    Option BulletinScan :=
  match read_msginfo data with
  | none => none
  | some mi =>
    let tb := scanTotalBlocks data mi
    let p1 := phase1 parseDate data mi
    let p2 := phase2 parseDate data mi p1.2
    let p3 := phase3 data mi p2.2.1
    let delSorted := sortByKey (fun m => dateKey m.date) p2.1
    some {
      totalBlocks := tb
      activeAllBlocks := activeAllOf data mi.dataOffset p1.1
      deletedAllBlocks := p2.2.2
      allocatedBlocks := (p1.1.map (fun m => m.block)).toFinset
      deletedBlocks := (delSorted.map (fun m => m.block)).toFinset
      orphanedBlocks := (p3.1.map (fun m => m.block)).toFinset
      activeMessages := p1.1
      deletedMessages := delSorted
      orphanedMessages := p3.1 }

/-- An email message record of `scan_database_email` (the optional
user-directory decoration is outside the recovery engine and carries no
algorithmic content, so it is not modelled). -/
structure EmailMsg where
  userId : Nat
  message : List Nat
  date : Option Nat
deriving DecidableEq

/-- Splitting of one user chain into messages: split on EOT (4), strip
null bytes, trim whitespace, and drop fragments shorter than 20
characters. -/
def emailSegs (chainText : List Nat) : List (List Nat) :=
  (splitOnByte 4 chainText).filterMap (fun m =>
    if (pyStrip (m.filter (fun x => decide (x ≠ 0)))).length < 20 then none
    else some (pyStrip (m.filter (fun x => decide (x ≠ 0)))))

/-- The per-user loop of `scan_database_email`: each directory slot is a
user id; a populated slot has its chain followed once with an empty
claim set, and the chain text is split into messages. -/
def emailGo (data : List Nat) (parseDate : List Nat → Option Nat) (dirOffset dataOffset : Nat)
    (totalBlocks : Int) : List Nat → Finset Nat → List EmailMsg → List EmailMsg × Finset Nat
  | [], used, acc => (acc, used)
  | u :: rest, used, acc =>
    let eo := dirOffset + u * 4
    if eo + 4 > data.length then (acc, used)
    else
      let blockNum := unpackLE16 data (eo + 2)
      if blockNum = 0 then emailGo data parseDate dirOffset dataOffset totalBlocks rest used acc
      else
        let r := follow_chain_with_tracking data blockNum totalBlocks ∅ dataOffset
        emailGo data parseDate dirOffset dataOffset totalBlocks rest (used ∪ r.blocksUsed)
          (acc ++ (emailSegs r.message).map (fun m =>
            { userId := u, message := m, date := parseDate m }))

/-- The result dictionary of `scan_database_email` (constant fields of
the source dictionary omitted). -/
structure EmailScan where
  totalBlocks : Int
  allocatedBlocks : Finset Nat
  activeMessages : List EmailMsg
deriving DecidableEq

/-- Embeds `scan_database_email(data, users)`, with all messages sorted
by date ascending. -/
def scan_database_email (parseDate : List Nat → Option Nat) (data : List Nat) :
    Option EmailScan :=
  match read_msginfo data with
  | none => none
  | some mi =>
    let tb := scanTotalBlocks data mi
    let g := emailGo data parseDate mi.dirOffset mi.dataOffset tb
      (List.range mi.maxDirEntries) ∅ []
    some { totalBlocks := tb
           allocatedBlocks := g.2
           activeMessages := sortByKey (fun m => dateKey m.date) g.1 }

/-- Date parser instance used for concrete stores: no text in them
carries a parsable date. -/
def parseDateNone : List Nat → Option Nat := fun _ => none

/-- A 4-byte directory entry whose low 16 bits at offset 2 reference
block `b`. -/
def dirEntry (b : Nat) : List Nat := [0, 0, b % 256, b / 256]

/-- A 126-byte payload that decodes (in stop-at-null mode) to the
4-line message head `S / 1,A / 2,B / Date :` followed by a line break,
satisfying the message-start heuristic. -/
def msgStartPayload : List Nat :=
  [83, 13, 177, 172, 65, 141, 50] ++ [66, 141, 68, 225, 244, 229, 32] ++
    [13, 0, 0, 0, 0, 0, 0] ++ List.replicate 105 0

/-- A one-block bulletin store whose directory slots 0 and 1 both
reference block 1, whose payload is a message start. -/
def storeA : List Nat :=
  [0, 1, 0, 0, 0, 0, 0, 0] ++ (dirEntry 1 ++ dirEntry 1 ++ List.replicate 120 0) ++
    (msgStartPayload ++ [0, 0])

/-- A one-block store whose block 1 carries a dangling next pointer to
the out-of-range block 2. -/
def storeC2 : List Nat :=
  [0, 1, 0, 0, 0, 0, 0, 0] ++ (dirEntry 1 ++ List.replicate 124 0) ++
    (List.replicate 126 0 ++ [2, 0])

/-- A 7-byte group decoding to seven spaces with a high bit giving a
space as eighth character as well. -/
def wsGroup : List Nat := [32, 32, 32, 32, 32, 160, 32]

/-- Block 2 of `storeC5`: decodes to the letter a, twenty spaces, the
letter b, and 122 further spaces; its stripped length is 22 while it
holds only two non-whitespace characters. -/
def storeC5block2 : List Nat :=
  [97, 32, 32, 32, 32, 160, 32] ++ wsGroup ++ [32, 32, 32, 32, 32, 226, 32] ++
    (List.replicate 15 wsGroup).flatten ++ [0, 0]

/-- A two-block store whose block 1 has a self-referencing next pointer
and whose block 2 is the whitespace-heavy probe target above. -/
def storeC5 : List Nat :=
  [0, 1, 0, 0, 0, 0, 0, 0] ++ List.replicate 128 0 ++
    (List.replicate 126 0 ++ [1, 0]) ++ storeC5block2

/-- A two-block store whose block 1 has a self-referencing next pointer
and whose block 2 decodes to a message start, making the sequential
probe fail. -/
def storeC5b : List Nat :=
  [0, 1, 0, 0, 0, 0, 0, 0] ++ List.replicate 128 0 ++
    (List.replicate 126 0 ++ [1, 0]) ++ (msgStartPayload ++ [0, 0])

/-- A one-block email store (first byte 4) whose user-0 chain decodes
to MSG1, an EOT byte, then MSG2: both fragments are shorter than 20
characters. -/
def storeMSG : List Nat :=
  [4, 1, 0, 0, 0, 0, 0, 0] ++ List.replicate 512 0 ++
    (dirEntry 1 ++ List.replicate 124 0) ++
    ([205, 211, 199, 49, 4, 77, 211] ++ [50, 0, 0, 0, 0, 0, 0] ++
      List.replicate 112 0 ++ [0, 0])

/-- A one-block email store whose user-0 chain decodes to 21 copies of
A, an EOT byte, then 21 copies of B: both fragments survive the
20-character minimum. -/
def storeAB : List Nat :=
  [4, 1, 0, 0, 0, 0, 0, 0] ++ List.replicate 512 0 ++
    (dirEntry 1 ++ List.replicate 124 0) ++
    ([193, 65, 65, 65, 65, 65, 193] ++ [193, 65, 65, 65, 65, 65, 193] ++
      [65, 193, 65, 65, 65, 4, 194] ++ [66, 194, 66, 66, 66, 66, 194] ++
      [66, 194, 66, 66, 66, 66, 194] ++ [66, 66, 66, 0, 0, 0, 0] ++
      List.replicate 84 0 ++ [0, 0])

/-- An 8-byte file whose header claims 255 bitmap blocks, pushing the
data offset far past the file length. -/
def storeHuge : List Nat := [255, 0, 0, 0, 0, 0, 0, 0]

/-- What every non-stopped loop-body execution does to the tracking
state: the current block is added to `visited` and `blocks_used` and
recorded in the ghost visit order. -/
def StepAdds (st st2 : FollowState) : Prop :=
  st2.visited = insert st.current st.visited ∧
  st2.blocksUsed = insert st.current st.blocksUsed ∧
  st2.visitList = st.visitList ++ [st.current]

theorem followStep_spec (data : List Nat) (tb : Int) (stop : Finset Nat) (off : Nat)
    (st : FollowState) :
    (st.current ∈ stop ∧ followStep data tb stop off st = .halt st) ∨
    (st.current ∉ stop ∧
      ((∃ st2, followStep data tb stop off st = .halt st2 ∧ StepAdds st st2) ∨
       (∃ st2, followStep data tb stop off st = .next st2 ∧ StepAdds st st2 ∧
         (st.current : Int) ≤ tb))) := by
  by_cases hs : st.current ∈ stop
  · exact Or.inl ⟨hs, by simp [followStep, hs]⟩
  refine Or.inr ⟨hs, ?_⟩
  simp only [followStep, if_neg hs]
  by_cases hob : off + (st.current - 1) * 128 + 128 > data.length ∨ (st.current : Int) > tb
  · rw [if_pos hob]
    exact Or.inl ⟨_, rfl, rfl, rfl, rfl⟩
  rw [if_neg hob]
  have hle : (st.current : Int) ≤ tb := by
    rcases not_or.mp hob with ⟨_, h2⟩; omega
  by_cases hms : st.firstBlock = false ∧
      is_message_start (decode_7bit ((data.drop (off + (st.current - 1) * 128)).take 126) false)
  · rw [if_pos hms]
    exact Or.inl ⟨_, rfl, rfl, rfl, rfl⟩
  rw [if_neg hms]
  by_cases hnz : unpackLE16 data (off + (st.current - 1) * 128 + 126) = 0
  · rw [if_pos hnz]
    exact Or.inl ⟨_, rfl, rfl, rfl, rfl⟩
  rw [if_neg hnz]
  by_cases hself : unpackLE16 data (off + (st.current - 1) * 128 + 126) = st.current
  · rw [if_pos hself]
    by_cases hpr1 : ((st.current + 1 : Nat) : Int) ≤ tb ∧ st.current + 1 ∉ stop
    · rw [if_pos hpr1]
      by_cases hpr2 : off + (st.current + 1 - 1) * 128 + 128 ≤ data.length
      · rw [if_pos hpr2]
        by_cases hpr3 : !is_message_start
              (decode_7bit ((data.drop (off + (st.current + 1 - 1) * 128)).take 126) false) ∧
            10 < (pyStrip
              (decode_7bit ((data.drop (off + (st.current + 1 - 1) * 128)).take 126) false)).length
        · rw [if_pos hpr3]
          exact Or.inr ⟨_, rfl, ⟨rfl, rfl, rfl⟩, hle⟩
        · rw [if_neg hpr3]
          exact Or.inl ⟨_, rfl, rfl, rfl, rfl⟩
      · rw [if_neg hpr2]
        exact Or.inl ⟨_, rfl, rfl, rfl, rfl⟩
    · rw [if_neg hpr1]
      exact Or.inl ⟨_, rfl, rfl, rfl, rfl⟩
  rw [if_neg hself]
  by_cases hv : unpackLE16 data (off + (st.current - 1) * 128 + 126) ∈ insert st.current st.visited
  · rw [if_pos hv]
    exact Or.inl ⟨_, rfl, rfl, rfl, rfl⟩
  · rw [if_neg hv]
    exact Or.inr ⟨_, rfl, ⟨rfl, rfl, rfl⟩, hle⟩

theorem followAux_nodup (data : List Nat) (tb : Int) (stop : Finset Nat) (off : Nat)
    (fuel : Nat) :
    ∀ (st : FollowState), st.visitList.Nodup →
      st.visitList.toFinset = st.visited → st.visited ⊆ Finset.Icc 1 tb.toNat →
      (followAux data tb stop off fuel st).visitList.Nodup ∧
        (followAux data tb stop off fuel st).visitList.length ≤ tb.toNat + 1 := by
  induction fuel with
  | zero =>
    intro st hnd htf hsub
    simp only [followAux]
    refine ⟨hnd, ?_⟩
    have hcard : st.visitList.length = st.visited.card := by
      rw [← htf, List.toFinset_card_of_nodup hnd]
    have h2 := Finset.card_le_card hsub
    rw [Nat.card_Icc] at h2
    omega
  | succ fuel ih =>
    intro st hnd htf hsub
    have hcard : st.visitList.length = st.visited.card := by
      rw [← htf, List.toFinset_card_of_nodup hnd]
    have h2 := Finset.card_le_card hsub
    rw [Nat.card_Icc] at h2
    simp only [followAux]
    by_cases hg : st.current ≠ 0 ∧ st.current ∉ st.visited
    · rw [if_pos hg]
      have hnotl : st.current ∉ st.visitList := by
        intro hmem
        exact hg.2 (htf ▸ List.mem_toFinset.mpr hmem)
      have hnd2 : (st.visitList ++ [st.current]).Nodup := by
        simp [List.nodup_append, hnd, hnotl]
      rcases followStep_spec data tb stop off st with ⟨_, heq⟩ | ⟨_, hrest⟩
      · simp only [heq]
        exact ⟨hnd, by omega⟩
      · rcases hrest with ⟨st2, heq, ha1, ha2, ha3⟩ | ⟨st2, heq, ⟨ha1, ha2, ha3⟩, hle⟩
        · simp only [heq]
          refine ⟨ha3 ▸ hnd2, ?_⟩
          rw [ha3]
          simp only [List.length_append, List.length_singleton]
          omega
        · simp only [heq]
          refine ih st2 (ha3 ▸ hnd2) ?_ ?_
          · rw [ha3, ha1, List.toFinset_append, htf]
            simp [Finset.union_comm, Finset.insert_eq]
          · rw [ha1]
            refine Finset.insert_subset ?_ hsub
            rw [Finset.mem_Icc]
            omega
    · rw [if_neg hg]
      exact ⟨hnd, by omega⟩

theorem followAux_fuel (data : List Nat) (tb : Int) (stop : Finset Nat) (off : Nat)
    (fuel : Nat) :
    ∀ (st : FollowState), st.visited ⊆ Finset.Icc 1 tb.toNat →
      tb.toNat + 1 - st.visited.card ≤ fuel →
      followAux data tb stop off (fuel + 1) st = followAux data tb stop off fuel st := by
  induction fuel with
  | zero =>
    intro st hsub hle
    have h2 := Finset.card_le_card hsub
    rw [Nat.card_Icc] at h2
    omega
  | succ fuel ih =>
    intro st hsub hle
    have h2 := Finset.card_le_card hsub
    rw [Nat.card_Icc] at h2
    conv_lhs => rw [followAux]
    conv_rhs => rw [followAux]
    by_cases hg : st.current ≠ 0 ∧ st.current ∉ st.visited
    · rw [if_pos hg, if_pos hg]
      rcases followStep_spec data tb stop off st with ⟨_, heq⟩ | ⟨_, hrest⟩
      · simp only [heq]
      · rcases hrest with ⟨st2, heq, _⟩ | ⟨st2, heq, ⟨ha1, _, _⟩, hle2⟩
        · simp only [heq]
        · simp only [heq]
          refine ih st2 ?_ ?_
          · rw [ha1]
            refine Finset.insert_subset ?_ hsub
            rw [Finset.mem_Icc]
            omega
          · rw [ha1, Finset.card_insert_of_not_mem hg.2]
            omega
    · rw [if_neg hg, if_neg hg]

theorem followAux_used_mono (data : List Nat) (tb : Int) (stop : Finset Nat) (off : Nat)
    (fuel : Nat) :
    ∀ (st : FollowState), st.blocksUsed ⊆ (followAux data tb stop off fuel st).blocksUsed := by
  induction fuel with
  | zero => intro st; simp [followAux]
  | succ fuel ih =>
    intro st
    simp only [followAux]
    by_cases hg : st.current ≠ 0 ∧ st.current ∉ st.visited
    · rw [if_pos hg]
      rcases followStep_spec data tb stop off st with ⟨_, heq⟩ | ⟨_, hrest⟩
      · simp [heq]
      · rcases hrest with ⟨st2, heq, _, ha2, _⟩ | ⟨st2, heq, ⟨_, ha2, _⟩, _⟩
        · simp only [heq]
          rw [ha2]
          exact Finset.subset_insert _ _
        · simp only [heq]
          exact subset_trans (ha2 ▸ Finset.subset_insert _ _) (ih st2)
    · rw [if_neg hg]

theorem followAux_stop_disjoint (data : List Nat) (tb : Int) (stop : Finset Nat) (off : Nat)
    (fuel : Nat) :
    ∀ (st : FollowState), Disjoint st.blocksUsed stop →
      Disjoint (followAux data tb stop off fuel st).blocksUsed stop := by
  induction fuel with
  | zero => intro st h; simpa [followAux] using h
  | succ fuel ih =>
    intro st h
    simp only [followAux]
    by_cases hg : st.current ≠ 0 ∧ st.current ∉ st.visited
    · rw [if_pos hg]
      rcases followStep_spec data tb stop off st with ⟨_, heq⟩ | ⟨hs, hrest⟩
      · simpa [heq] using h
      · have hins : Disjoint (insert st.current st.blocksUsed) stop := by
          rw [Finset.disjoint_left]
          intro a ha
          rcases Finset.mem_insert.mp ha with rfl | ha2
          · exact hs
          · exact Finset.disjoint_left.mp h ha2
        rcases hrest with ⟨st2, heq, _, ha2, _⟩ | ⟨st2, heq, ⟨_, ha2, _⟩, _⟩
        · simp only [heq]
          rw [ha2]
          exact hins
        · simp only [heq]
          exact ih st2 (ha2 ▸ hins)
    · rw [if_neg hg]
      exact h

theorem follow_stop_disjoint (data : List Nat) (startBlock : Nat) (tb : Int)
    (stop : Finset Nat) (off : Nat) :
    Disjoint (follow_chain_with_tracking data startBlock tb stop off).blocksUsed stop := by
  exact followAux_stop_disjoint data tb stop off _ _ (by simp [followInit])

theorem follow_start_mem (data : List Nat) (startBlock : Nat) (tb : Int)
    (stop : Finset Nat) (off : Nat) (h0 : startBlock ≠ 0) (hs : startBlock ∉ stop) :
    startBlock ∈ (follow_chain_with_tracking data startBlock tb stop off).blocksUsed := by
  unfold follow_chain_with_tracking
  simp only [followAux]
  rw [if_pos (by simp [followInit, h0])]
  rcases followStep_spec data tb stop off (followInit startBlock) with ⟨hmem, _⟩ | ⟨_, hrest⟩
  · exact absurd hmem hs
  · rcases hrest with ⟨st2, heq, _, ha2, _⟩ | ⟨st2, heq, ⟨_, ha2, _⟩, _⟩
    · simp only [heq, followFinish]
      rw [ha2]
      simp [followInit]
    · simp only [heq, followFinish]
      refine followAux_used_mono data tb stop off _ st2 ?_
      rw [ha2]
      simp [followInit]

theorem follow_start_in_stop (data : List Nat) (startBlock : Nat) (tb : Int)
    (stop : Finset Nat) (off : Nat) (hs : startBlock ∈ stop) :
    follow_chain_with_tracking data startBlock tb stop off =
      { message := [], blocksUsed := ∅, visitList := [] } := by
  unfold follow_chain_with_tracking
  simp only [followAux]
  by_cases hg : startBlock ≠ 0 ∧ startBlock ∉ (∅ : Finset Nat)
  · rw [if_pos (by simpa [followInit] using hg)]
    have hstep : followStep data tb stop off (followInit startBlock) =
        .halt (followInit startBlock) := by
      simp [followStep, followInit, hs]
    rw [hstep]
    simp [followFinish, followInit, truncAtNull]
  · rw [if_neg (by simpa [followInit] using hg)]
    simp [followFinish, followInit, truncAtNull]

set_option maxRecDepth 8000 in
/-- C2, counterexample to the claim as stated: the walk of `storeC2`
(one data block, so `totalBlocks = 1`) starting at block 1 visits two
blocks, because the dangling next pointer to the out-of-range block 2
is consumed before the bounds check stops the walk; so the follower
does not always visit at most `totalBlocks` blocks. -/
theorem claim2_counterexample :
    (follow_chain_with_tracking storeC2 1 1 ∅ 136).visitList.length = 2 ∧
      ¬ (2 ≤ ((1 : Int)).toNat) := by
  constructor
  · rfl
  · decide

/-- C2, amended: for every store buffer, start block and claim set the
chain follower reaches its final state within `totalBlocks.toNat + 1`
loop iterations (any larger fuel computes the same state), never visits
the same block twice within one call, and visits at most
`totalBlocks.toNat + 1` blocks; the possible extra block beyond
`totalBlocks` is a single out-of-range block consumed just before the
bounds check stops the walk. -/
theorem claim2_theorem (data : List Nat) (startBlock : Nat) (tb : Int)
    (stop : Finset Nat) (off : Nat) :
    (∀ extra : Nat,
        followAux data tb stop off (tb.toNat + 1 + extra) (followInit startBlock) =
          followAux data tb stop off (tb.toNat + 1) (followInit startBlock)) ∧
    (follow_chain_with_tracking data startBlock tb stop off).visitList.Nodup ∧
    (follow_chain_with_tracking data startBlock tb stop off).visitList.length ≤
      tb.toNat + 1 := by
  have hbase := followAux_nodup data tb stop off (tb.toNat + 1) (followInit startBlock)
    (by simp [followInit]) (by simp [followInit]) (by simp [followInit])
  refine ⟨?_, hbase.1, hbase.2⟩
  intro extra
  induction extra with
  | zero => rfl
  | succ k ihk =>
    have hstep := followAux_fuel data tb stop off (tb.toNat + 1 + k) (followInit startBlock)
      (by simp [followInit]) (by simp [followInit])
    calc followAux data tb stop off (tb.toNat + 1 + (k + 1)) (followInit startBlock)
        = followAux data tb stop off (tb.toNat + 1 + k) (followInit startBlock) := by
          have harith : tb.toNat + 1 + (k + 1) = (tb.toNat + 1 + k) + 1 := by ring
          rw [harith]
          exact hstep
      _ = followAux data tb stop off (tb.toNat + 1) (followInit startBlock) := ihk

/-- The high (eighth) bit of a byte, as a 0-or-1 value. -/
def highBit (b : Nat) : Nat := (b >>> 7) % 2

theorem highBit_lt (b : Nat) : highBit b < 2 := Nat.mod_lt _ (by omega)

theorem byteAnd128 (b : Nat) : b &&& 128 = 128 * highBit b := by
  have h1 : (128 : Nat) = 2 ^ 7 := by norm_num
  rw [h1, Nat.and_two_pow]
  have h2 : (b.testBit 7).toNat = highBit b := by
    rw [Nat.testBit_to_div_mod]
    unfold highBit
    rw [Nat.shiftRight_eq_div_pow]
    norm_num
    rcases Nat.mod_two_eq_zero_or_one (b / 128) with h | h <;> simp [h]
  rw [h2]
  ring

theorem orChainEq : ∀ (h0 h1 h2 h3 h4 h5 h6 : Fin 2),
    (((((((((0 : Nat) >>> 1 ||| 128 * (h0 : Nat)) >>> 1 ||| 128 * (h1 : Nat)) >>> 1 |||
        128 * (h2 : Nat)) >>> 1 ||| 128 * (h3 : Nat)) >>> 1 ||| 128 * (h4 : Nat)) >>> 1 |||
        128 * (h5 : Nat)) >>> 1 ||| 128 * (h6 : Nat)) >>> 1) =
      (h0 : Nat) + 2 * (h1 : Nat) + 4 * (h2 : Nat) + 8 * (h3 : Nat) + 16 * (h4 : Nat) +
        32 * (h5 : Nat) + 64 * (h6 : Nat) := by decide

theorem decode7Group_eq (b0 b1 b2 b3 b4 b5 b6 : Nat) :
    decode7Group [b0, b1, b2, b3, b4, b5, b6] =
      [b0 &&& 127, b1 &&& 127, b2 &&& 127, b3 &&& 127, b4 &&& 127, b5 &&& 127, b6 &&& 127,
        highBit b0 + 2 * highBit b1 + 4 * highBit b2 + 8 * highBit b3 + 16 * highBit b4 +
          32 * highBit b5 + 64 * highBit b6] := by
  have h : (((((((((0 : Nat) >>> 1 ||| (b0 &&& 128)) >>> 1 ||| (b1 &&& 128)) >>> 1 |||
      (b2 &&& 128)) >>> 1 ||| (b3 &&& 128)) >>> 1 ||| (b4 &&& 128)) >>> 1 |||
      (b5 &&& 128)) >>> 1 ||| (b6 &&& 128)) >>> 1) =
      highBit b0 + 2 * highBit b1 + 4 * highBit b2 + 8 * highBit b3 + 16 * highBit b4 +
        32 * highBit b5 + 64 * highBit b6 := by
    simp only [byteAnd128]
    exact orChainEq ⟨highBit b0, highBit_lt b0⟩ ⟨highBit b1, highBit_lt b1⟩
      ⟨highBit b2, highBit_lt b2⟩ ⟨highBit b3, highBit_lt b3⟩ ⟨highBit b4, highBit_lt b4⟩
      ⟨highBit b5, highBit_lt b5⟩ ⟨highBit b6, highBit_lt b6⟩
  show [b0 &&& 127, b1 &&& 127, b2 &&& 127, b3 &&& 127, b4 &&& 127, b5 &&& 127, b6 &&& 127] ++
      [(((((((((0 : Nat) >>> 1 ||| (b0 &&& 128)) >>> 1 ||| (b1 &&& 128)) >>> 1 |||
        (b2 &&& 128)) >>> 1 ||| (b3 &&& 128)) >>> 1 ||| (b4 &&& 128)) >>> 1 |||
        (b5 &&& 128)) >>> 1 ||| (b6 &&& 128)) >>> 1)] = _
  rw [h]
  rfl

/-- The consecutive 7-byte groups of an input, any remainder shorter
than 7 bytes discarded; written from the claim, not from the source. -/
def chunks7 : List Nat → List (List Nat)
  | b0 :: b1 :: b2 :: b3 :: b4 :: b5 :: b6 :: rest =>
    [b0, b1, b2, b3, b4, b5, b6] :: chunks7 rest
  | _ => []

/-- The eighth output byte of a group as the claim describes it: one
bit per input byte, the bit of input byte `k` contributing weight
`2 ^ k` after the seven right shifts. -/
def highAssemble (g : List Nat) : Nat :=
  highBit (g.getD 0 0) + 2 * highBit (g.getD 1 0) + 4 * highBit (g.getD 2 0) +
    8 * highBit (g.getD 3 0) + 16 * highBit (g.getD 4 0) + 32 * highBit (g.getD 5 0) +
      64 * highBit (g.getD 6 0)

/-- One decoded group as the claim describes it: the 7 low-7-bit values
followed by the assembled eighth byte. -/
def decodeGroupSpec (g : List Nat) : List Nat :=
  g.map (fun b => b &&& 127) ++ [highAssemble g]

/-- The decode-fully output as the claim describes it: group-by-group
decoding of the 7-byte chunks, remainder discarded, carriage returns
converted. -/
def decode7SpecFull (bs : List Nat) : List Nat :=
  toText ((chunks7 bs).map decodeGroupSpec).flatten

theorem appendChars_false : ∀ (cs acc : List Nat), appendChars false cs acc = (acc ++ cs, false)
  | [], acc => by simp [appendChars]
  | c :: cs, acc => by
    simp [appendChars, appendChars_false cs (acc ++ [c])]

theorem decode7Loop_false (bs : List Nat) : ∀ (acc : List Nat),
    decode7Loop false bs acc = toText (acc ++ ((chunks7 bs).map decodeGroupSpec).flatten) := by
  induction bs using chunks7.induct with
  | case1 b0 b1 b2 b3 b4 b5 b6 rest ih =>
    intro acc
    rw [decode7Loop, appendChars_false]
    simp only []
    rw [ih (acc ++ decode7Group [b0, b1, b2, b3, b4, b5, b6]), chunks7]
    simp only [List.map_cons, List.flatten_cons]
    rw [decode7Group_eq]
    have hg : decodeGroupSpec [b0, b1, b2, b3, b4, b5, b6] =
        [b0 &&& 127, b1 &&& 127, b2 &&& 127, b3 &&& 127, b4 &&& 127, b5 &&& 127, b6 &&& 127,
          highBit b0 + 2 * highBit b1 + 4 * highBit b2 + 8 * highBit b3 + 16 * highBit b4 +
            32 * highBit b5 + 64 * highBit b6] := by
      simp [decodeGroupSpec, highAssemble]
    rw [hg]
    simp [List.append_assoc]
  | case2 bs h =>
    intro acc
    have h1 : decode7Loop false bs acc = toText acc := by
      match bs, h with
      | [], _ => rfl
      | [b0], _ => rfl
      | [b0, b1], _ => rfl
      | [b0, b1, b2], _ => rfl
      | [b0, b1, b2, b3], _ => rfl
      | [b0, b1, b2, b3, b4], _ => rfl
      | [b0, b1, b2, b3, b4, b5], _ => rfl
      | b0 :: b1 :: b2 :: b3 :: b4 :: b5 :: b6 :: rest, hh =>
        exact (hh b0 b1 b2 b3 b4 b5 b6 rest rfl).elim
    have h2 : chunks7 bs = [] := by
      match bs, h with
      | [], _ => rfl
      | [b0], _ => rfl
      | [b0, b1], _ => rfl
      | [b0, b1, b2], _ => rfl
      | [b0, b1, b2, b3], _ => rfl
      | [b0, b1, b2, b3, b4], _ => rfl
      | [b0, b1, b2, b3, b4, b5], _ => rfl
      | b0 :: b1 :: b2 :: b3 :: b4 :: b5 :: b6 :: rest, hh =>
        exact (hh b0 b1 b2 b3 b4 b5 b6 rest rfl).elim
    rw [h1, h2]
    simp

/-- C3: in decode-fully mode the packed-text decoder equals the
group-by-group description of the claim: consecutive 7-byte chunks are
decoded while at least 7 bytes remain (the shorter remainder is
discarded), each chunk yielding its 7 low-7-bit values followed by an
eighth byte assembled from the seven high bits; and every carriage
return is converted, so no carriage return (13) survives in any
output. -/
theorem claim3_theorem :
    (∀ bs : List Nat, decode_7bit bs false = decode7SpecFull bs) ∧
    (∀ bs : List Nat, (decode_7bit bs false).contains 13 = false) := by
  have hmain : ∀ bs : List Nat, decode_7bit bs false = decode7SpecFull bs := by
    intro bs
    unfold decode_7bit decode7SpecFull
    rw [decode7Loop_false]
    simp
  have hnomem : ∀ bs : List Nat, ¬ (13 ∈ decode_7bit bs false) := by
    intro bs hmem
    rw [hmain bs] at hmem
    unfold decode7SpecFull toText at hmem
    rcases List.mem_map.mp hmem with ⟨a, _, ha⟩
    by_cases h1 : 128 ≤ a
    · rw [if_pos h1] at ha
      omega
    · rw [if_neg h1] at ha
      by_cases h2 : a = 13
      · rw [if_pos h2] at ha
        omega
      · rw [if_neg h2] at ha
        omega
  refine ⟨hmain, fun bs => ?_⟩
  simpa using hnomem bs

theorem phase2Go_inv (data : List Nat) (pd : List Nat → Option Nat) (off : Nat) (tb : Int)
    (l : List Nat) :
    ∀ (used dAll : Finset Nat) (acc : List DeletedMsg), dAll ⊆ used →
      (phase2Go data pd off tb l used dAll acc).2.1 =
          used ∪ (phase2Go data pd off tb l used dAll acc).2.2 ∧
        dAll ⊆ (phase2Go data pd off tb l used dAll acc).2.2 ∧
        ∀ x ∈ (phase2Go data pd off tb l used dAll acc).2.2, x ∉ dAll → x ∉ used := by
  induction l with
  | nil =>
    intro used dAll acc hsub
    simp only [phase2Go]
    exact ⟨(Finset.union_eq_left.mpr hsub).symm, Finset.Subset.refl _,
      fun x hx hnx => absurd hx hnx⟩
  | cons b rest ih =>
    intro used dAll acc hsub
    simp only [phase2Go]
    by_cases h1 : b ∈ used
    · rw [if_pos h1]; exact ih used dAll acc hsub
    rw [if_neg h1]
    by_cases h2 : off + (b - 1) * 128 + 128 > data.length
    · rw [if_pos h2]; exact ih used dAll acc hsub
    rw [if_neg h2]
    by_cases h3 : ((blockPayload data off b).filter (fun x => decide (x ≠ 0))).length < 10
    · rw [if_pos h3]; exact ih used dAll acc hsub
    rw [if_neg h3]
    by_cases h4 : (!is_message_start (decode_7bit (blockPayload data off b) true)) = true
    · rw [if_pos h4]; exact ih used dAll acc hsub
    rw [if_neg h4]
    have hdisj : Disjoint (follow_chain_with_tracking data b tb used off).blocksUsed used :=
      follow_stop_disjoint data b tb used off
    obtain ⟨ih1, ih2, ih3⟩ := ih (used ∪ (follow_chain_with_tracking data b tb used off).blocksUsed)
      (dAll ∪ (follow_chain_with_tracking data b tb used off).blocksUsed)
      (acc ++ [{ block := b,
                 message := (follow_chain_with_tracking data b tb used off).message,
                 date := pd (follow_chain_with_tracking data b tb used off).message }])
      (Finset.union_subset_union hsub (Finset.Subset.refl _))
    have hrBP := subset_trans Finset.subset_union_right ih2
    refine ⟨?_, ?_, ?_⟩
    · rw [ih1, Finset.union_assoc, Finset.union_eq_right.mpr hrBP]
    · exact subset_trans Finset.subset_union_left ih2
    · intro x hx hnd
      by_cases hxr : x ∈ (follow_chain_with_tracking data b tb used off).blocksUsed
      · exact Finset.disjoint_left.mp hdisj hxr
      · have hnd2 : x ∉ dAll ∪ (follow_chain_with_tracking data b tb used off).blocksUsed := by
          simp [hnd, hxr]
        intro hu
        exact ih3 x hx hnd2 (Finset.mem_union_left _ hu)

theorem phase3Go_mono (data : List Nat) (off : Nat) (tb : Int) (l : List Nat) :
    ∀ (used : Finset Nat) (acc : List OrphanMsg),
      used ⊆ (phase3Go data off tb l used acc).2 := by
  induction l with
  | nil => intro used acc; simp [phase3Go]
  | cons b rest ih =>
    intro used acc
    simp only [phase3Go]
    by_cases h1 : b ∈ used
    · rw [if_pos h1]; exact ih used acc
    rw [if_neg h1]
    by_cases h2 : off + (b - 1) * 128 + 128 > data.length
    · rw [if_pos h2]; exact ih used acc
    rw [if_neg h2]
    by_cases h3 : ((blockPayload data off b).filter (fun x => decide (x ≠ 0))).length < 10
    · rw [if_pos h3]; exact ih used acc
    rw [if_neg h3]
    exact subset_trans Finset.subset_union_left (ih _ _)

/-- The parsed header of `storeA`. -/
def miA : MsgInfo :=
  { bitmapBlocks := 0, dirBlocks := 1, usedBlocks := 0, msgCount := 0, newMsgNum := 0,
    bitmapOffset := 8, dirOffset := 8, dataOffset := 136, maxDirEntries := 32 }

/-- C1: for a store accepted by the header parser, the consumed-block
sets of the three bulletin phases, namely the claim set after phase 1,
the `deleted_all_blocks` set of phase 2, and the blocks newly claimed by
phase 3, are pairwise disjoint, and their union is exactly the final
claim set, that is, all blocks reached by the traversals from the
directory slots and the phase 2 and 3 recovery heads; so each block is
attributed at most once, by phase priority. -/
theorem claim1_theorem (pd : List Nat → Option Nat) (data : List Nat) (mi : MsgInfo)
    (_hmi : read_msginfo data = some mi) :
    Disjoint (phase1 pd data mi).2 (phase2 pd data mi (phase1 pd data mi).2).2.2 ∧
    Disjoint (phase1 pd data mi).2
      ((phase3 data mi (phase2 pd data mi (phase1 pd data mi).2).2.1).2 \
        (phase2 pd data mi (phase1 pd data mi).2).2.1) ∧
    Disjoint (phase2 pd data mi (phase1 pd data mi).2).2.2
      ((phase3 data mi (phase2 pd data mi (phase1 pd data mi).2).2.1).2 \
        (phase2 pd data mi (phase1 pd data mi).2).2.1) ∧
    (phase1 pd data mi).2 ∪ (phase2 pd data mi (phase1 pd data mi).2).2.2 ∪
        ((phase3 data mi (phase2 pd data mi (phase1 pd data mi).2).2.1).2 \
          (phase2 pd data mi (phase1 pd data mi).2).2.1) =
      (phase3 data mi (phase2 pd data mi (phase1 pd data mi).2).2.1).2 := by
  obtain ⟨h1, h2, h3⟩ := phase2Go_inv data pd mi.dataOffset (scanTotalBlocks data mi)
    (unusedList (scanTotalBlocks data mi) (phase1 pd data mi).2) (phase1 pd data mi).2 ∅ []
    (Finset.empty_subset _)
  have hu2 : (phase2 pd data mi (phase1 pd data mi).2).2.1 =
      (phase1 pd data mi).2 ∪ (phase2 pd data mi (phase1 pd data mi).2).2.2 := h1
  have hDnotA : ∀ x ∈ (phase2 pd data mi (phase1 pd data mi).2).2.2,
      x ∉ (phase1 pd data mi).2 := fun x hx => h3 x hx (Finset.not_mem_empty x)
  have hADdisj : Disjoint (phase1 pd data mi).2
      (phase2 pd data mi (phase1 pd data mi).2).2.2 :=
    Finset.disjoint_right.mpr hDnotA
  have hmono : (phase2 pd data mi (phase1 pd data mi).2).2.1 ⊆
      (phase3 data mi (phase2 pd data mi (phase1 pd data mi).2).2.1).2 :=
    phase3Go_mono data mi.dataOffset (scanTotalBlocks data mi)
      (unusedList (scanTotalBlocks data mi) (phase2 pd data mi (phase1 pd data mi).2).2.1)
      (phase2 pd data mi (phase1 pd data mi).2).2.1 []
  have hAu2 : (phase1 pd data mi).2 ⊆ (phase2 pd data mi (phase1 pd data mi).2).2.1 := by
    rw [hu2]; exact Finset.subset_union_left
  have hDu2 : (phase2 pd data mi (phase1 pd data mi).2).2.2 ⊆
      (phase2 pd data mi (phase1 pd data mi).2).2.1 := by
    rw [hu2]; exact Finset.subset_union_right
  have hOdisj : Disjoint (phase2 pd data mi (phase1 pd data mi).2).2.1
      ((phase3 data mi (phase2 pd data mi (phase1 pd data mi).2).2.1).2 \
        (phase2 pd data mi (phase1 pd data mi).2).2.1) := Finset.disjoint_sdiff
  refine ⟨hADdisj, Disjoint.mono_left hAu2 hOdisj, Disjoint.mono_left hDu2 hOdisj, ?_⟩
  rw [← hu2, Finset.union_sdiff_of_subset hmono]

set_option maxRecDepth 8000 in
/-- C1 witness: the pairwise-disjointness instance on the concrete
store `storeA`, whose header parses to `miA`. -/
theorem claim1_witness :
    read_msginfo storeA = some miA ∧
      Disjoint (phase1 parseDateNone storeA miA).2
        (phase2 parseDateNone storeA miA (phase1 parseDateNone storeA miA).2).2.2 :=
  ⟨by rfl, (claim1_theorem parseDateNone storeA miA (by rfl)).1⟩

theorem phase1Go_used_mono (data : List Nat) (pd : List Nat → Option Nat)
    (dirO off : Nat) (tb : Int) (l : List Nat) :
    ∀ (used : Finset Nat) (acc : List ActiveMsg),
      used ⊆ (phase1Go data pd dirO off tb l used acc).2 := by
  induction l with
  | nil => intro used acc; simp [phase1Go]
  | cons a rest ih =>
    intro used acc
    simp only [phase1Go]
    by_cases h0 : dirO + a * 4 + 4 > data.length
    · rw [if_pos h0]
    rw [if_neg h0]
    by_cases hz : unpackLE16 data (dirO + a * 4 + 2) = 0
    · rw [if_pos hz]; exact ih used acc
    rw [if_neg hz]
    by_cases hgt : (unpackLE16 data (dirO + a * 4 + 2) : Int) > tb
    · rw [if_pos hgt]; exact ih used acc
    rw [if_neg hgt]
    exact subset_trans Finset.subset_union_left (ih _ _)

theorem phase1Go_mem_used (data : List Nat) (pd : List Nat → Option Nat)
    (dirO off : Nat) (tb : Int) (l : List Nat) :
    ∀ (used : Finset Nat) (acc : List ActiveMsg) (e : Nat), e ∈ l →
      (∀ e2 ∈ l, dirO + e2 * 4 + 4 ≤ data.length) →
      unpackLE16 data (dirO + e * 4 + 2) ≠ 0 →
      (unpackLE16 data (dirO + e * 4 + 2) : Int) ≤ tb →
      unpackLE16 data (dirO + e * 4 + 2) ∈ (phase1Go data pd dirO off tb l used acc).2 := by
  induction l with
  | nil => intro _ _ _ h; cases h
  | cons a rest ih =>
    intro used acc e hmem hread hnz hle
    simp only [phase1Go]
    have hra : dirO + a * 4 + 4 ≤ data.length := hread a (by simp)
    rw [if_neg (by omega)]
    rcases List.mem_cons.mp hmem with rfl | hmem2
    · by_cases hz : unpackLE16 data (dirO + e * 4 + 2) = 0
      · exact absurd hz hnz
      rw [if_neg hz]
      by_cases hgt : (unpackLE16 data (dirO + e * 4 + 2) : Int) > tb
      · exact absurd hgt (by omega)
      rw [if_neg hgt]
      refine Finset.mem_of_subset (phase1Go_used_mono data pd dirO off tb rest _ _) ?_
      by_cases hBu : unpackLE16 data (dirO + e * 4 + 2) ∈ used
      · exact Finset.mem_union_left _ hBu
      · exact Finset.mem_union_right _ (follow_start_mem data _ tb used off hnz hBu)
    · have hread2 : ∀ e2 ∈ rest, dirO + e2 * 4 + 4 ≤ data.length :=
        fun x hx => hread x (by simp [hx])
      by_cases hz : unpackLE16 data (dirO + a * 4 + 2) = 0
      · rw [if_pos hz]; exact ih used acc e hmem2 hread2 hnz hle
      rw [if_neg hz]
      by_cases hgt : (unpackLE16 data (dirO + a * 4 + 2) : Int) > tb
      · rw [if_pos hgt]; exact ih used acc e hmem2 hread2 hnz hle
      rw [if_neg hgt]
      exact ih _ _ e hmem2 hread2 hnz hle

theorem phase2Go_heads (data : List Nat) (pd : List Nat → Option Nat) (off : Nat)
    (tb : Int) (l : List Nat) :
    ∀ (used dAll : Finset Nat) (acc : List DeletedMsg) (m : DeletedMsg),
      m ∈ (phase2Go data pd off tb l used dAll acc).1 → m ∈ acc ∨ m.block ∈ l := by
  induction l with
  | nil => intro used dAll acc m hm; simp only [phase2Go] at hm; exact Or.inl hm
  | cons b rest ih =>
    intro used dAll acc m hm
    simp only [phase2Go] at hm
    by_cases h1 : b ∈ used
    · rw [if_pos h1] at hm
      rcases ih _ _ _ _ hm with h | h
      · exact Or.inl h
      · exact Or.inr (by simp [h])
    · rw [if_neg h1] at hm
      by_cases h2 : off + (b - 1) * 128 + 128 > data.length
      · rw [if_pos h2] at hm
        rcases ih _ _ _ _ hm with h | h
        · exact Or.inl h
        · exact Or.inr (by simp [h])
      rw [if_neg h2] at hm
      by_cases h3 : ((blockPayload data off b).filter (fun x => decide (x ≠ 0))).length < 10
      · rw [if_pos h3] at hm
        rcases ih _ _ _ _ hm with h | h
        · exact Or.inl h
        · exact Or.inr (by simp [h])
      rw [if_neg h3] at hm
      by_cases h4 : (!is_message_start (decode_7bit (blockPayload data off b) true)) = true
      · rw [if_pos h4] at hm
        rcases ih _ _ _ _ hm with h | h
        · exact Or.inl h
        · exact Or.inr (by simp [h])
      rw [if_neg h4] at hm
      rcases ih _ _ _ _ hm with h | h
      · rcases List.mem_append.mp h with h5 | h5
        · exact Or.inl h5
        · simp only [List.mem_singleton] at h5
          subst h5
          exact Or.inr (by simp)
      · exact Or.inr (by simp [h])

theorem phase3Go_heads (data : List Nat) (off : Nat) (tb : Int) (l : List Nat) :
    ∀ (used : Finset Nat) (acc : List OrphanMsg) (m : OrphanMsg),
      m ∈ (phase3Go data off tb l used acc).1 → m ∈ acc ∨ m.block ∈ l := by
  induction l with
  | nil => intro used acc m hm; simp only [phase3Go] at hm; exact Or.inl hm
  | cons b rest ih =>
    intro used acc m hm
    simp only [phase3Go] at hm
    by_cases h1 : b ∈ used
    · rw [if_pos h1] at hm
      rcases ih _ _ _ hm with h | h
      · exact Or.inl h
      · exact Or.inr (by simp [h])
    · rw [if_neg h1] at hm
      by_cases h2 : off + (b - 1) * 128 + 128 > data.length
      · rw [if_pos h2] at hm
        rcases ih _ _ _ hm with h | h
        · exact Or.inl h
        · exact Or.inr (by simp [h])
      rw [if_neg h2] at hm
      by_cases h3 : ((blockPayload data off b).filter (fun x => decide (x ≠ 0))).length < 10
      · rw [if_pos h3] at hm
        rcases ih _ _ _ hm with h | h
        · exact Or.inl h
        · exact Or.inr (by simp [h])
      rw [if_neg h3] at hm
      rcases ih _ _ _ hm with h | h
      · rcases List.mem_append.mp h with h5 | h5
        · exact Or.inl h5
        · simp only [List.mem_singleton] at h5
          subst h5
          exact Or.inr (by simp)
      · exact Or.inr (by simp [h])

theorem unusedList_not_mem (tb : Int) (used : Finset Nat) (b : Nat)
    (h : b ∈ unusedList tb used) : b ∉ used := by
  have := List.of_mem_filter h
  simpa using this

/-- C4: in a store whose directory lies inside the file, a block that
is referenced by a populated, in-range directory slot and whose payload
independently satisfies the message-start heuristic ends up in the
phase 1 claim set (classified Active), and is never the head block of a
Deleted or Orphaned message record. -/
theorem claim4_theorem (pd : List Nat → Option Nat) (data : List Nat) (mi : MsgInfo)
    (e : Nat) (hmi : read_msginfo data = some mi) (hdo : mi.dataOffset ≤ data.length)
    (he : e < mi.maxDirEntries)
    (hnz : unpackLE16 data (mi.dirOffset + e * 4 + 2) ≠ 0)
    (hle : (unpackLE16 data (mi.dirOffset + e * 4 + 2) : Int) ≤ scanTotalBlocks data mi)
    (hms : is_message_start (decode_7bit
      (blockPayload data mi.dataOffset (unpackLE16 data (mi.dirOffset + e * 4 + 2))) true)
        = true) :
    unpackLE16 data (mi.dirOffset + e * 4 + 2) ∈ (phase1 pd data mi).2 ∧
    (∀ m ∈ (phase2 pd data mi (phase1 pd data mi).2).1,
      m.block ≠ unpackLE16 data (mi.dirOffset + e * 4 + 2)) ∧
    (∀ m ∈ (phase3 data mi (phase2 pd data mi (phase1 pd data mi).2).2.1).1,
      m.block ≠ unpackLE16 data (mi.dirOffset + e * 4 + 2)) := by
  have hread : ∀ e2 ∈ List.range mi.maxDirEntries,
      mi.dirOffset + e2 * 4 + 4 ≤ data.length := by
    intro e2 he2
    rw [List.mem_range] at he2
    have hlen8 : ¬ data.length < 8 := by
      intro h
      rw [read_msginfo, if_pos h] at hmi
      exact Option.noConfusion hmi
    rw [read_msginfo, if_neg hlen8] at hmi
    injection hmi with hmi2
    subst hmi2
    simp only at he2 hdo ⊢
    have hq : data.getD 1 0 * 128 / 4 * 4 ≤ data.getD 1 0 * 128 := Nat.div_mul_le_self _ _
    omega
  have hmemA : unpackLE16 data (mi.dirOffset + e * 4 + 2) ∈ (phase1 pd data mi).2 :=
    phase1Go_mem_used data pd mi.dirOffset mi.dataOffset (scanTotalBlocks data mi)
      (List.range mi.maxDirEntries) ∅ [] e (List.mem_range.mpr he) hread hnz hle
  refine ⟨hmemA, ?_, ?_⟩
  · intro m hm
    rcases phase2Go_heads data pd mi.dataOffset (scanTotalBlocks data mi) _ _ _ _ m hm with
      h | h
    · cases h
    · have hnotA := unusedList_not_mem _ _ _ h
      intro heq
      exact hnotA (heq ▸ hmemA)
  · intro m hm
    rcases phase3Go_heads data mi.dataOffset (scanTotalBlocks data mi) _ _ _ m hm with h | h
    · cases h
    · have hnotU2 := unusedList_not_mem _ _ _ h
      intro heq
      have hAu2 : (phase1 pd data mi).2 ⊆
          (phase2 pd data mi (phase1 pd data mi).2).2.1 :=
        (phase2Go_inv data pd mi.dataOffset (scanTotalBlocks data mi)
          (unusedList (scanTotalBlocks data mi) (phase1 pd data mi).2)
          (phase1 pd data mi).2 ∅ [] (Finset.empty_subset _)).1 ▸ Finset.subset_union_left
      exact hnotU2 (hAu2 (heq ▸ hmemA))

set_option maxRecDepth 8000 in
/-- C4 witness: slot 0 of `storeA` references block 1, whose payload is
a message start; block 1 is claimed by phase 1 and heads no deleted or
orphaned record. -/
theorem claim4_witness :
    read_msginfo storeA = some miA ∧ unpackLE16 storeA (miA.dirOffset + 0 * 4 + 2) = 1 ∧
      1 ∈ (phase1 parseDateNone storeA miA).2 :=
  ⟨by rfl, by rfl,
    (claim4_theorem parseDateNone storeA miA 0 (by rfl) (by decide) (by decide)
      (by decide) (by decide) (by decide)).1⟩

theorem dir_entries_readable (data : List Nat) (mi : MsgInfo)
    (hmi : read_msginfo data = some mi) (hdo : mi.dataOffset ≤ data.length) :
    ∀ e2 ∈ List.range mi.maxDirEntries, mi.dirOffset + e2 * 4 + 4 ≤ data.length := by
  intro e2 he2
  rw [List.mem_range] at he2
  have hlen8 : ¬ data.length < 8 := by
    intro h
    rw [read_msginfo, if_pos h] at hmi
    exact Option.noConfusion hmi
  rw [read_msginfo, if_neg hlen8] at hmi
  injection hmi with hmi2
  subst hmi2
  simp only at he2 hdo ⊢
  have hq : data.getD 1 0 * 128 / 4 * 4 ≤ data.getD 1 0 * 128 := Nat.div_mul_le_self _ _
  omega

theorem phase1Go_entries (data : List Nat) (pd : List Nat → Option Nat)
    (dirO off : Nat) (tb : Int) (l : List Nat) :
    ∀ (used : Finset Nat) (acc : List ActiveMsg),
      (∀ e2 ∈ l, dirO + e2 * 4 + 4 ≤ data.length) →
      ((phase1Go data pd dirO off tb l used acc).1).map (fun m => m.entry) =
        acc.map (fun m => m.entry) ++ l.filter (fun e =>
          decide (unpackLE16 data (dirO + e * 4 + 2) ≠ 0 ∧
            (unpackLE16 data (dirO + e * 4 + 2) : Int) ≤ tb)) := by
  induction l with
  | nil => intro used acc _; simp [phase1Go]
  | cons a rest ih =>
    intro used acc hread
    simp only [phase1Go]
    have hra : dirO + a * 4 + 4 ≤ data.length := hread a (by simp)
    rw [if_neg (by omega)]
    have hread2 : ∀ e2 ∈ rest, dirO + e2 * 4 + 4 ≤ data.length :=
      fun x hx => hread x (by simp [hx])
    rw [List.filter_cons]
    by_cases hz : unpackLE16 data (dirO + a * 4 + 2) = 0
    · rw [if_pos hz, ih used acc hread2]
      have hp : (decide (unpackLE16 data (dirO + a * 4 + 2) ≠ 0 ∧
          (unpackLE16 data (dirO + a * 4 + 2) : Int) ≤ tb)) = false := by
        simp [hz]
      rw [hp]
      simp
    rw [if_neg hz]
    by_cases hgt : (unpackLE16 data (dirO + a * 4 + 2) : Int) > tb
    · rw [if_pos hgt, ih used acc hread2]
      have hp : (decide (unpackLE16 data (dirO + a * 4 + 2) ≠ 0 ∧
          (unpackLE16 data (dirO + a * 4 + 2) : Int) ≤ tb)) = false := by
        simp only [decide_eq_false_iff_not]
        intro hand
        omega
      rw [hp]
      simp
    rw [if_neg hgt]
    have hp : (decide (unpackLE16 data (dirO + a * 4 + 2) ≠ 0 ∧
        (unpackLE16 data (dirO + a * 4 + 2) : Int) ≤ tb)) = true := by
      simp only [decide_eq_true_eq]
      exact ⟨hz, by omega⟩
    rw [hp, ih _ _ hread2]
    simp

theorem phase1Go_records (data : List Nat) (pd : List Nat → Option Nat)
    (dirO off : Nat) (tb : Int) (l : List Nat) :
    ∀ (used : Finset Nat) (acc : List ActiveMsg) (m : ActiveMsg),
      m ∈ (phase1Go data pd dirO off tb l used acc).1 →
      m ∈ acc ∨ (m.block = unpackLE16 data (dirO + m.entry * 4 + 2) ∧
        m.date = pd m.message) := by
  induction l with
  | nil => intro used acc m hm; simp only [phase1Go] at hm; exact Or.inl hm
  | cons a rest ih =>
    intro used acc m hm
    simp only [phase1Go] at hm
    by_cases h0 : dirO + a * 4 + 4 > data.length
    · rw [if_pos h0] at hm; exact Or.inl hm
    rw [if_neg h0] at hm
    by_cases hz : unpackLE16 data (dirO + a * 4 + 2) = 0
    · rw [if_pos hz] at hm; exact ih _ _ _ hm
    rw [if_neg hz] at hm
    by_cases hgt : (unpackLE16 data (dirO + a * 4 + 2) : Int) > tb
    · rw [if_pos hgt] at hm; exact ih _ _ _ hm
    rw [if_neg hgt] at hm
    rcases ih _ _ _ hm with h | h
    · rcases List.mem_append.mp h with h5 | h5
      · exact Or.inl h5
      · simp only [List.mem_singleton] at h5
        subst h5
        exact Or.inr ⟨rfl, rfl⟩
    · exact Or.inr h

theorem phase1Go_append (data : List Nat) (pd : List Nat → Option Nat)
    (dirO off : Nat) (tb : Int) (l1 : List Nat) :
    ∀ (l2 : List Nat) (used : Finset Nat) (acc : List ActiveMsg),
      (∀ e2 ∈ l1, dirO + e2 * 4 + 4 ≤ data.length) →
      phase1Go data pd dirO off tb (l1 ++ l2) used acc =
        phase1Go data pd dirO off tb l2 (phase1Go data pd dirO off tb l1 used acc).2
          (phase1Go data pd dirO off tb l1 used acc).1 := by
  induction l1 with
  | nil => intro l2 used acc _; simp [phase1Go]
  | cons a rest ih =>
    intro l2 used acc hread
    have hra : dirO + a * 4 + 4 ≤ data.length := hread a (by simp)
    have hread2 : ∀ e2 ∈ rest, dirO + e2 * 4 + 4 ≤ data.length :=
      fun x hx => hread x (by simp [hx])
    have hbr : ¬ (dirO + a * 4 + 4 > data.length) := by omega
    show phase1Go data pd dirO off tb (a :: (rest ++ l2)) used acc = _
    conv_lhs => simp only [phase1Go]
    conv_rhs => simp only [phase1Go]
    rw [if_neg hbr, if_neg hbr]
    by_cases hz : unpackLE16 data (dirO + a * 4 + 2) = 0
    · rw [if_pos hz, if_pos hz]; exact ih l2 used acc hread2
    rw [if_neg hz, if_neg hz]
    by_cases hgt : (unpackLE16 data (dirO + a * 4 + 2) : Int) > tb
    · rw [if_pos hgt, if_pos hgt]; exact ih l2 used acc hread2
    rw [if_neg hgt, if_neg hgt]
    exact ih l2 _ _ hread2

/-- Phase 1 restricted to the directory slots before `k`, used to state
what one slot adds. -/
def phase1Upto (pd : List Nat → Option Nat) (data : List Nat) (mi : MsgInfo) (k : Nat) :
    List ActiveMsg × Finset Nat :=
  phase1Go data pd mi.dirOffset mi.dataOffset (scanTotalBlocks data mi) (List.range k) ∅ []

/-- C10: for a store whose directory lies inside the file, phase 1
produces exactly one Active record per populated in-range directory
slot, in slot order with the slot number preserved as the entry index;
each record carries the referenced head block and the date extracted
from its message; and a populated slot whose referenced block is
already claimed when the slot is processed adds a record with empty
text and claims no further blocks. -/
theorem claim10_theorem (pd : List Nat → Option Nat) (data : List Nat) (mi : MsgInfo)
    (hmi : read_msginfo data = some mi) (hdo : mi.dataOffset ≤ data.length) :
    ((phase1 pd data mi).1.map (fun m => m.entry) =
      (List.range mi.maxDirEntries).filter (fun e =>
        decide (unpackLE16 data (mi.dirOffset + e * 4 + 2) ≠ 0 ∧
          (unpackLE16 data (mi.dirOffset + e * 4 + 2) : Int) ≤ scanTotalBlocks data mi))) ∧
    (∀ m ∈ (phase1 pd data mi).1,
      m.block = unpackLE16 data (mi.dirOffset + m.entry * 4 + 2) ∧
      m.date = pd m.message) ∧
    (∀ k, k < mi.maxDirEntries →
      unpackLE16 data (mi.dirOffset + k * 4 + 2) ≠ 0 →
      (unpackLE16 data (mi.dirOffset + k * 4 + 2) : Int) ≤ scanTotalBlocks data mi →
      unpackLE16 data (mi.dirOffset + k * 4 + 2) ∈ (phase1Upto pd data mi k).2 →
      phase1Upto pd data mi (k + 1) =
        ((phase1Upto pd data mi k).1 ++
          [{ entry := k, block := unpackLE16 data (mi.dirOffset + k * 4 + 2),
             message := [], date := pd [] }],
         (phase1Upto pd data mi k).2)) := by
  have hread := dir_entries_readable data mi hmi hdo
  refine ⟨?_, ?_, ?_⟩
  · have := phase1Go_entries data pd mi.dirOffset mi.dataOffset (scanTotalBlocks data mi)
      (List.range mi.maxDirEntries) ∅ [] hread
    simpa using this
  · intro m hm
    rcases phase1Go_records data pd mi.dirOffset mi.dataOffset (scanTotalBlocks data mi)
      (List.range mi.maxDirEntries) ∅ [] m hm with h | h
    · cases h
    · exact h
  · intro k hk hnz hle hmem
    have hreadk : ∀ e2 ∈ List.range k, mi.dirOffset + e2 * 4 + 4 ≤ data.length := by
      intro e2 he2
      rw [List.mem_range] at he2
      exact hread e2 (List.mem_range.mpr (by omega))
    unfold phase1Upto at hmem ⊢
    rw [List.range_succ, phase1Go_append data pd mi.dirOffset mi.dataOffset
      (scanTotalBlocks data mi) (List.range k) [k] ∅ [] hreadk]
    conv_lhs => simp only [phase1Go]
    rw [if_neg (show ¬ (mi.dirOffset + k * 4 + 4 > data.length) by
        have := hread k (List.mem_range.mpr hk); omega),
      if_neg hnz,
      if_neg (show ¬ ((unpackLE16 data (mi.dirOffset + k * 4 + 2) : Int) >
        scanTotalBlocks data mi) by omega)]
    rw [follow_start_in_stop data _ _ _ _ hmem]
    simp [phase1Go]

set_option maxRecDepth 8000 in
/-- C10 witness: slot 1 of `storeA` references block 1, already claimed
by the chain of slot 0; the second record has empty text and claims
nothing new. -/
theorem claim10_witness :
    read_msginfo storeA = some miA ∧
      1 ∈ (phase1Upto parseDateNone storeA miA 1).2 ∧
      phase1Upto parseDateNone storeA miA 2 =
        ((phase1Upto parseDateNone storeA miA 1).1 ++
          [{ entry := 1, block := 1, message := [], date := parseDateNone [] }],
         (phase1Upto parseDateNone storeA miA 1).2) :=
  ⟨by rfl, by decide,
    (claim10_theorem parseDateNone storeA miA (by rfl) (by decide)).2.2 1 (by decide)
      (by decide) (by decide) (by decide)⟩

/-- C9: the consumed set of the follower includes every block the walk
reached and then rejected: a non-first block matching the message-start
heuristic is consumed while its text is not appended (the halt state
keeps `messageParts` unchanged and adds the block to `blocksUsed`), and
an out-of-range block is consumed before the bounds check stops the
walk; whereas a block at which the walk stops because it lies in the
callers claim set is never in the returned consumed set. -/
theorem claim9_theorem :
    (∀ (data : List Nat) (tb : Int) (stop : Finset Nat) (off : Nat) (st : FollowState),
      st.current ∉ stop →
      ¬ (off + (st.current - 1) * 128 + 128 > data.length ∨ (st.current : Int) > tb) →
      st.firstBlock = false →
      is_message_start
        (decode_7bit ((data.drop (off + (st.current - 1) * 128)).take 126) false) = true →
      followStep data tb stop off st =
        .halt { st with visited := insert st.current st.visited
                        blocksUsed := insert st.current st.blocksUsed
                        visitList := st.visitList ++ [st.current] }) ∧
    (∀ (data : List Nat) (tb : Int) (stop : Finset Nat) (off : Nat) (st : FollowState),
      st.current ∉ stop →
      (off + (st.current - 1) * 128 + 128 > data.length ∨ (st.current : Int) > tb) →
      followStep data tb stop off st =
        .halt { st with visited := insert st.current st.visited
                        blocksUsed := insert st.current st.blocksUsed
                        visitList := st.visitList ++ [st.current] }) ∧
    (∀ (data : List Nat) (startBlock : Nat) (tb : Int) (stop : Finset Nat) (off : Nat)
      (b : Nat), b ∈ stop →
      b ∉ (follow_chain_with_tracking data startBlock tb stop off).blocksUsed) := by
  refine ⟨?_, ?_, ?_⟩
  · intro data tb stop off st hs hob hfb hms
    simp only [followStep, if_neg hs]
    rw [if_neg hob, if_pos (⟨hfb, hms⟩ :
      st.firstBlock = false ∧ is_message_start
        (decode_7bit ((data.drop (off + (st.current - 1) * 128)).take 126) false) = true)]
  · intro data tb stop off st hs hob
    simp only [followStep, if_neg hs]
    rw [if_pos hob]
  · intro data startBlock tb stop off b hb
    exact Finset.disjoint_right.mp (follow_stop_disjoint data startBlock tb stop off) hb

set_option maxRecDepth 8000 in
/-- C9 witness: in `storeC5b` a non-first visit of the message-start
block 2 is consumed with no text appended; in `storeC2` the
out-of-range block 2 is consumed before the walk stops; in `storeA` a
walk stopped at the claimed block 1 excludes it from the consumed
set. -/
theorem claim9_witness :
    followStep storeC5b 2 ∅ 136
        { messageParts := [], current := 2, visited := ∅, blocksUsed := ∅,
          firstBlock := false, visitList := [] } =
      .halt { messageParts := [], current := 2, visited := {2}, blocksUsed := {2},
              firstBlock := false, visitList := [2] } ∧
    followStep storeC2 1 ∅ 136
        { messageParts := [], current := 2, visited := ∅, blocksUsed := ∅,
          firstBlock := false, visitList := [] } =
      .halt { messageParts := [], current := 2, visited := {2}, blocksUsed := {2},
              firstBlock := false, visitList := [2] } ∧
    decide (1 ∈ (follow_chain_with_tracking storeA 1 1 {1} 136).blocksUsed) = false := by
  refine ⟨?_, ?_, ?_⟩
  · exact claim9_theorem.1 storeC5b 2 ∅ 136
      { messageParts := [], current := 2, visited := ∅, blocksUsed := ∅,
        firstBlock := false, visitList := [] } (by decide) (by decide) rfl (by decide)
  · exact claim9_theorem.2.1 storeC2 1 ∅ 136
      { messageParts := [], current := 2, visited := ∅, blocksUsed := ∅,
        firstBlock := false, visitList := [] } (by decide) (by decide)
  · exact decide_eq_false (claim9_theorem.2.2 storeA 1 1 {1} 136 1 (by decide))

set_option maxRecDepth 8000 in
/-- C5, counterexample to the claim as stated: in `storeC5` block 1
points to itself, and the sequential probe block 2 decodes to just two
non-whitespace characters (far below the more-than-10 the claim would
require), yet the chain is resumed into block 2 (it is consumed by the
walk), because the source tests the length of the stripped text, which
counts interior whitespace, not the count of non-whitespace
characters. -/
theorem claim5_counterexample :
    2 ∈ (follow_chain_with_tracking storeC5 1 2 ∅ 136).blocksUsed ∧
      ((decode_7bit ((storeC5.drop 264).take 126) false).filter
        (fun c => !pyIsSpace c)).length ≤ 10 := by
  constructor
  · decide
  · decide

/-- C5, amended: during a chain walk, when a block whose next pointer
equals its own number is reached (and the walk is not otherwise
stopping at it), the follower probes the next sequential block: if that
block is within `totalBlocks`, not in the callers claim set, inside
the file, does not match the message-start heuristic, and its decoded
text STRIPPED of leading and trailing whitespace is longer than 10
characters (interior whitespace and null bytes count), the walk resumes
at the sequential block; otherwise the walk stops. -/
theorem claim5_theorem :
    (∀ (data : List Nat) (tb : Int) (stop : Finset Nat) (off : Nat) (st : FollowState),
      st.current ≠ 0 → st.current ∉ stop →
      ¬ (off + (st.current - 1) * 128 + 128 > data.length ∨ (st.current : Int) > tb) →
      ¬ (st.firstBlock = false ∧ is_message_start
        (decode_7bit ((data.drop (off + (st.current - 1) * 128)).take 126) false) = true) →
      unpackLE16 data (off + (st.current - 1) * 128 + 126) = st.current →
      ((st.current + 1 : Nat) : Int) ≤ tb → st.current + 1 ∉ stop →
      off + st.current * 128 + 128 ≤ data.length →
      is_message_start (decode_7bit ((data.drop (off + st.current * 128)).take 126) false)
        = false →
      10 < (pyStrip (decode_7bit ((data.drop (off + st.current * 128)).take 126) false)).length →
      followStep data tb stop off st =
        .next { messageParts := st.messageParts ++
                  [if st.firstBlock = false then
                    (decode_7bit ((data.drop (off + (st.current - 1) * 128)).take 126)
                      false).dropWhile (fun c => c == 0)
                  else decode_7bit ((data.drop (off + (st.current - 1) * 128)).take 126) false]
                current := st.current + 1
                visited := insert st.current st.visited
                blocksUsed := insert st.current st.blocksUsed
                firstBlock := false
                visitList := st.visitList ++ [st.current] }) ∧
    (∀ (data : List Nat) (tb : Int) (stop : Finset Nat) (off : Nat) (st : FollowState),
      st.current ≠ 0 → st.current ∉ stop →
      ¬ (off + (st.current - 1) * 128 + 128 > data.length ∨ (st.current : Int) > tb) →
      ¬ (st.firstBlock = false ∧ is_message_start
        (decode_7bit ((data.drop (off + (st.current - 1) * 128)).take 126) false) = true) →
      unpackLE16 data (off + (st.current - 1) * 128 + 126) = st.current →
      ¬ ((((st.current + 1 : Nat) : Int) ≤ tb ∧ st.current + 1 ∉ stop) ∧
        off + st.current * 128 + 128 ≤ data.length ∧
        ((!is_message_start
            (decode_7bit ((data.drop (off + st.current * 128)).take 126) false)) = true ∧
          10 < (pyStrip
            (decode_7bit ((data.drop (off + st.current * 128)).take 126) false)).length)) →
      followStep data tb stop off st =
        .halt { messageParts := st.messageParts ++
                  [if st.firstBlock = false then
                    (decode_7bit ((data.drop (off + (st.current - 1) * 128)).take 126)
                      false).dropWhile (fun c => c == 0)
                  else decode_7bit ((data.drop (off + (st.current - 1) * 128)).take 126) false]
                current := st.current
                visited := insert st.current st.visited
                blocksUsed := insert st.current st.blocksUsed
                firstBlock := false
                visitList := st.visitList ++ [st.current] }) := by
  constructor
  · intro data tb stop off st hc0 hs hob hnomsg hself hle1 hstop1 hnso hmsf hlen10
    simp only [followStep, if_neg hs, if_neg hob, if_neg hnomsg, hself]
    rw [if_neg hc0, if_true,
      if_pos (⟨hle1, hstop1⟩ : ((st.current + 1 : Nat) : Int) ≤ tb ∧ st.current + 1 ∉ stop)]
    simp only [Nat.add_sub_cancel]
    rw [if_pos hnso, if_pos (⟨by simp [hmsf], hlen10⟩ :
      (!is_message_start
        (decode_7bit ((data.drop (off + st.current * 128)).take 126) false)) = true ∧
      10 < (pyStrip
        (decode_7bit ((data.drop (off + st.current * 128)).take 126) false)).length)]
  · intro data tb stop off st hc0 hs hob hnomsg hself hfail
    simp only [followStep, if_neg hs, if_neg hob, if_neg hnomsg, hself]
    rw [if_neg hc0, if_true]
    simp only [Nat.add_sub_cancel]
    by_cases h1 : ((st.current + 1 : Nat) : Int) ≤ tb ∧ st.current + 1 ∉ stop
    · rw [if_pos h1]
      by_cases h2 : off + st.current * 128 + 128 ≤ data.length
      · rw [if_pos h2]
        by_cases h3 : (!is_message_start
            (decode_7bit ((data.drop (off + st.current * 128)).take 126) false)) = true ∧
            10 < (pyStrip
              (decode_7bit ((data.drop (off + st.current * 128)).take 126) false)).length
        · exact absurd ⟨h1, h2, h3⟩ hfail
        · rw [if_neg h3]
      · rw [if_neg h2]
    · rw [if_neg h1]

set_option maxRecDepth 8000 in
/-- C5 witness: in `storeC5` the probe on block 2 succeeds (stripped
length 22) and the walk resumes at block 2; in `storeC5b` block 2 is a
message start, the probe fails and the walk stops. -/
theorem claim5_witness :
    followStep storeC5 2 ∅ 136
        { messageParts := [], current := 1, visited := ∅, blocksUsed := ∅,
          firstBlock := true, visitList := [] } =
      .next { messageParts := [decode_7bit ((storeC5.drop 136).take 126) false], current := 2,
              visited := {1}, blocksUsed := {1}, firstBlock := false, visitList := [1] } ∧
    followStep storeC5b 2 ∅ 136
        { messageParts := [], current := 1, visited := ∅, blocksUsed := ∅,
          firstBlock := true, visitList := [] } =
      .halt { messageParts := [decode_7bit ((storeC5b.drop 136).take 126) false], current := 1,
              visited := {1}, blocksUsed := {1}, firstBlock := false, visitList := [1] } := by
  constructor
  · exact claim5_theorem.1 storeC5 2 ∅ 136
      { messageParts := [], current := 1, visited := ∅, blocksUsed := ∅,
        firstBlock := true, visitList := [] }
      (by decide) (by decide) (by decide) (by decide) (by decide) (by decide) (by decide)
      (by decide) (by decide) (by decide)
  · exact claim5_theorem.2 storeC5b 2 ∅ 136
      { messageParts := [], current := 1, visited := ∅, blocksUsed := ∅,
        firstBlock := true, visitList := [] }
      (by decide) (by decide) (by decide) (by decide) (by decide) (by decide)

theorem phase1Go_nonpos (data : List Nat) (pd : List Nat → Option Nat) (dirO off : Nat)
    (tb : Int) (htb : tb ≤ 0) (l : List Nat) :
    ∀ (used : Finset Nat) (acc : List ActiveMsg),
      phase1Go data pd dirO off tb l used acc = (acc, used) := by
  induction l with
  | nil => intro used acc; simp [phase1Go]
  | cons a rest ih =>
    intro used acc
    simp only [phase1Go]
    by_cases h0 : dirO + a * 4 + 4 > data.length
    · rw [if_pos h0]
    rw [if_neg h0]
    by_cases hz : unpackLE16 data (dirO + a * 4 + 2) = 0
    · rw [if_pos hz]; exact ih used acc
    rw [if_neg hz]
    have hgt : (unpackLE16 data (dirO + a * 4 + 2) : Int) > tb := by
      have h1 : 1 ≤ unpackLE16 data (dirO + a * 4 + 2) := Nat.one_le_iff_ne_zero.mpr hz
      omega
    rw [if_pos hgt]
    exact ih used acc

theorem unusedList_nonpos (tb : Int) (htb : tb ≤ 0) (used : Finset Nat) :
    unusedList tb used = [] := by
  unfold unusedList
  have h : tb.toNat = 0 := by omega
  rw [h]
  rfl

theorem scanTotalBlocks_neg (data : List Nat) (mi : MsgInfo)
    (h : data.length < mi.dataOffset) : scanTotalBlocks data mi < 0 := by
  unfold scanTotalBlocks
  rw [Int.fdiv_eq_ediv _ (by norm_num)]
  omega

/-- The parsed header of `storeHuge`. -/
def miHuge : MsgInfo :=
  { bitmapBlocks := 255, dirBlocks := 0, usedBlocks := 0, msgCount := 0, newMsgNum := 0,
    bitmapOffset := 8, dirOffset := 32648, dataOffset := 32648, maxDirEntries := 0 }

/-- C6, counterexample to the claim as stated: `storeHuge` has a valid
8-byte header whose data offset (32648) far exceeds the file length
(8), yet `scan_database_bulletin` does NOT report failure: it returns a
scan result. -/
theorem claim6_counterexample :
    read_msginfo storeHuge = some miHuge ∧ storeHuge.length < miHuge.dataOffset ∧
      (scan_database_bulletin parseDateNone storeHuge).isSome = true :=
  ⟨by rfl, by decide, by rfl⟩

/-- C6, amended: scanning reports failure (`none`) exactly for headers
shorter than 8 bytes; when the header parses but the data offset
exceeds the file length, the scanner still succeeds and returns a
result with no active, deleted or orphaned messages (the data area is
treated as empty). -/
theorem claim6_theorem :
    (∀ (pd : List Nat → Option Nat) (data : List Nat), data.length < 8 →
      scan_database_bulletin pd data = none) ∧
    (∀ (pd : List Nat → Option Nat) (data : List Nat) (mi : MsgInfo),
      read_msginfo data = some mi → data.length < mi.dataOffset →
      (scan_database_bulletin pd data).map
        (fun r => (r.activeMessages, r.deletedMessages, r.orphanedMessages)) =
        some ([], [], [])) := by
  constructor
  · intro pd data hlen
    unfold scan_database_bulletin
    rw [read_msginfo, if_pos hlen]
  · intro pd data mi hmi hlen
    have htb : scanTotalBlocks data mi < 0 := scanTotalBlocks_neg data mi hlen
    have hp1 : phase1 pd data mi = ([], ∅) := by
      unfold phase1
      exact phase1Go_nonpos data pd mi.dirOffset mi.dataOffset _ (by omega) _ ∅ []
    have hp2 : phase2 pd data mi ∅ = ([], ∅, ∅) := by
      unfold phase2
      rw [unusedList_nonpos _ (by omega)]
      simp [phase2Go]
    have hp3 : phase3 data mi ∅ = ([], ∅) := by
      unfold phase3
      rw [unusedList_nonpos _ (by omega)]
      simp [phase3Go]
    simp only [scan_database_bulletin, hmi]
    simp [hp1, hp2, hp3, sortByKey]

/-- C6 witness: a 3-byte file is rejected with `none`; `storeHuge`
yields a successful scan with empty message lists. -/
theorem claim6_witness :
    scan_database_bulletin parseDateNone ([0, 0, 0] : List Nat) = none ∧
      (scan_database_bulletin parseDateNone storeHuge).map
        (fun r => (r.activeMessages, r.deletedMessages, r.orphanedMessages)) =
        some ([], [], []) :=
  ⟨claim6_theorem.1 parseDateNone [0, 0, 0] (by decide),
    claim6_theorem.2 parseDateNone storeHuge miHuge (by rfl) (by decide)⟩

theorem emailSegs_len (t : List Nat) (s : List Nat) (hs : s ∈ emailSegs t) :
    20 ≤ s.length := by
  unfold emailSegs at hs
  rcases List.mem_filterMap.mp hs with ⟨m, _, hm⟩
  by_cases h : (pyStrip (m.filter (fun x => decide (x ≠ 0)))).length < 20
  · rw [if_pos h] at hm
    exact Option.noConfusion hm
  · rw [if_neg h] at hm
    injection hm with hm2
    subst hm2
    omega

theorem mem_insertByKey {α : Type} (key : α → Nat) (x y : α) (l : List α) :
    y ∈ insertByKey key x l ↔ y = x ∨ y ∈ l := by
  induction l with
  | nil => simp [insertByKey]
  | cons a rest ih =>
    simp only [insertByKey]
    by_cases h : key x ≤ key a
    · rw [if_pos h]
      simp
    · rw [if_neg h]
      simp only [List.mem_cons, ih]
      tauto

theorem mem_sortByKey {α : Type} (key : α → Nat) (y : α) (l : List α) :
    y ∈ sortByKey key l ↔ y ∈ l := by
  induction l with
  | nil => simp [sortByKey]
  | cons a rest ih =>
    simp only [sortByKey, mem_insertByKey, List.mem_cons, ih]

theorem emailGo_len (data : List Nat) (pd : List Nat → Option Nat) (dirO off : Nat)
    (tb : Int) (l : List Nat) :
    ∀ (used : Finset Nat) (acc : List EmailMsg) (m : EmailMsg),
      m ∈ (emailGo data pd dirO off tb l used acc).1 →
      m ∈ acc ∨ 20 ≤ m.message.length := by
  induction l with
  | nil => intro used acc m hm; simp only [emailGo] at hm; exact Or.inl hm
  | cons u rest ih =>
    intro used acc m hm
    simp only [emailGo] at hm
    by_cases h0 : dirO + u * 4 + 4 > data.length
    · rw [if_pos h0] at hm
      exact Or.inl hm
    rw [if_neg h0] at hm
    by_cases hz : unpackLE16 data (dirO + u * 4 + 2) = 0
    · rw [if_pos hz] at hm
      exact ih _ _ _ hm
    rw [if_neg hz] at hm
    rcases ih _ _ _ hm with h | h
    · rcases List.mem_append.mp h with h5 | h5
      · exact Or.inl h5
      · rcases List.mem_map.mp h5 with ⟨seg, hseg, hrec⟩
        subst hrec
        exact Or.inr (emailSegs_len _ _ hseg)
    · exact Or.inr h

set_option maxRecDepth 8000 in
/-- C7, counterexample to the claim as stated: the user-0 chain of the
email store `storeMSG` decodes to MSG1, an EOT byte, then MSG2, yet the
scanner yields zero records, not two: both fragments are 4 characters
long, below the 20-character minimum that the same claim also
requires. -/
theorem claim7_counterexample :
    (scan_database_email parseDateNone storeMSG).map (fun r => r.activeMessages.length) =
      some 0 := by rfl

/-- The scan result of `storeAB`. -/
def rAB : EmailScan :=
  { totalBlocks := 1, allocatedBlocks := {1},
    activeMessages := [{ userId := 0, message := List.replicate 21 65, date := none },
                       { userId := 0, message := List.replicate 21 66, date := none }] }

set_option maxRecDepth 8000 in
/-- C7, amended: every record the Email Scanner emits has a message of
at least 20 characters after null-stripping and trimming, so the chain
decoding to MSG1, EOT, MSG2 yields no records (both fragments are
dropped by the 20-character minimum), while a chain with two 21-byte
fragments around the EOT yields exactly those two records. -/
theorem claim7_theorem :
    (∀ (pd : List Nat → Option Nat) (data : List Nat) (r : EmailScan) (m : EmailMsg),
      scan_database_email pd data = some r → m ∈ r.activeMessages →
      20 ≤ m.message.length) ∧
    (scan_database_email parseDateNone storeMSG).map (fun r => r.activeMessages) = some [] ∧
    (scan_database_email parseDateNone storeAB).map
        (fun r => r.activeMessages.map (fun m => (m.userId, m.message))) =
      some [(0, List.replicate 21 65), (0, List.replicate 21 66)] := by
  refine ⟨?_, by rfl, by rfl⟩
  intro pd data r m hscan hm
  unfold scan_database_email at hscan
  cases hread : read_msginfo data with
  | none => rw [hread] at hscan; exact Option.noConfusion hscan
  | some mi =>
    rw [hread] at hscan
    simp only [] at hscan
    injection hscan with hscan2
    subst hscan2
    simp only [] at hm
    rw [mem_sortByKey] at hm
    rcases emailGo_len data pd mi.dirOffset mi.dataOffset (scanTotalBlocks data mi)
      (List.range mi.maxDirEntries) ∅ [] m hm with h | h
    · cases h
    · exact h

set_option maxRecDepth 8000 in
/-- C7 witness: the concrete scan of `storeAB` and the 20-character
bound instantiated at its first record. -/
theorem claim7_witness :
    scan_database_email parseDateNone storeAB = some rAB ∧
      20 ≤ (List.replicate 21 65).length :=
  ⟨by rfl,
    claim7_theorem.1 parseDateNone storeAB rAB
      { userId := 0, message := List.replicate 21 65, date := none } (by rfl) (by decide)⟩

/-- Checked variant of the output conversion: models the Python
`bytes(result)` constructor, which raises on any value outside 0..255;
the ascii decode with replacement and the carriage-return substitution
never raise. -/
def toTextChecked (result : List Nat) : Option (List Nat) :=
  if result.all (fun c => decide (c < 256)) then some (toText result) else none

/-- Checked variant of the decoder loop: surfaces the partial
`bytes(...)` construction at every exit. -/
def decode7LoopChecked (stopAtNull : Bool) : List Nat → List Nat → Option (List Nat)
  | b0 :: b1 :: b2 :: b3 :: b4 :: b5 :: b6 :: rest, result =>
    match appendChars stopAtNull (decode7Group [b0, b1, b2, b3, b4, b5, b6]) result with
    | (r, true) => toTextChecked r
    | (r, false) => decode7LoopChecked stopAtNull rest r
  | _, result => toTextChecked result

/-- Checked variant of `decode_7bit`: `none` would mean a raised
exception. -/
def decode_7bit_checked (compressedData : List Nat) (stopAtNull : Bool) : Option (List Nat) :=
  decode7LoopChecked stopAtNull compressedData []

theorem decode7Group_lt (b0 b1 b2 b3 b4 b5 b6 : Nat) :
    ∀ c ∈ decode7Group [b0, b1, b2, b3, b4, b5, b6], c < 256 := by
  rw [decode7Group_eq]
  intro c hc
  have ha0 : b0 &&& 127 ≤ 127 := Nat.and_le_right
  have ha1 : b1 &&& 127 ≤ 127 := Nat.and_le_right
  have ha2 : b2 &&& 127 ≤ 127 := Nat.and_le_right
  have ha3 : b3 &&& 127 ≤ 127 := Nat.and_le_right
  have ha4 : b4 &&& 127 ≤ 127 := Nat.and_le_right
  have ha5 : b5 &&& 127 ≤ 127 := Nat.and_le_right
  have ha6 : b6 &&& 127 ≤ 127 := Nat.and_le_right
  have hh0 := highBit_lt b0
  have hh1 := highBit_lt b1
  have hh2 := highBit_lt b2
  have hh3 := highBit_lt b3
  have hh4 := highBit_lt b4
  have hh5 := highBit_lt b5
  have hh6 := highBit_lt b6
  simp only [List.mem_cons, List.not_mem_nil, or_false] at hc
  rcases hc with rfl | rfl | rfl | rfl | rfl | rfl | rfl | rfl <;> omega

theorem appendChars_mem (sn : Bool) (cs : List Nat) :
    ∀ (acc : List Nat) (x : Nat), x ∈ (appendChars sn cs acc).1 → x ∈ acc ∨ x ∈ cs := by
  induction cs with
  | nil =>
    intro acc x hx
    simp only [appendChars] at hx
    exact Or.inl hx
  | cons c rest ih =>
    intro acc x hx
    simp only [appendChars] at hx
    by_cases h : sn = true ∧ c = 0
    · rw [if_pos h] at hx
      exact Or.inl hx
    · rw [if_neg h] at hx
      rcases ih _ _ hx with h2 | h2
      · rcases List.mem_append.mp h2 with h3 | h3
        · exact Or.inl h3
        · simp only [List.mem_singleton] at h3
          subst h3
          exact Or.inr (by simp)
      · exact Or.inr (by simp [h2])

theorem decode7LoopChecked_eq (sn : Bool) (bs : List Nat) : ∀ (acc : List Nat),
    (∀ x ∈ acc, x < 256) →
    decode7LoopChecked sn bs acc = some (decode7Loop sn bs acc) := by
  induction bs using chunks7.induct with
  | case1 b0 b1 b2 b3 b4 b5 b6 rest ih =>
    intro acc hacc
    rw [decode7LoopChecked, decode7Loop]
    rcases hap : appendChars sn (decode7Group [b0, b1, b2, b3, b4, b5, b6]) acc with ⟨r, early⟩
    have hr : ∀ x ∈ r, x < 256 := by
      intro x hx
      rcases appendChars_mem sn _ acc x (by rw [hap]; exact hx) with h | h
      · exact hacc x h
      · exact decode7Group_lt b0 b1 b2 b3 b4 b5 b6 x h
    cases early with
    | true =>
      simp only []
      unfold toTextChecked
      rw [if_pos (by simpa using hr)]
    | false => exact ih r hr
  | case2 bs h =>
    intro acc hacc
    have h1 : decode7LoopChecked sn bs acc = toTextChecked acc := by
      match bs, h with
      | [], _ => rfl
      | [b0], _ => rfl
      | [b0, b1], _ => rfl
      | [b0, b1, b2], _ => rfl
      | [b0, b1, b2, b3], _ => rfl
      | [b0, b1, b2, b3, b4], _ => rfl
      | [b0, b1, b2, b3, b4, b5], _ => rfl
      | b0 :: b1 :: b2 :: b3 :: b4 :: b5 :: b6 :: rest, hh =>
        exact (hh b0 b1 b2 b3 b4 b5 b6 rest rfl).elim
    have h2 : decode7Loop sn bs acc = toText acc := by
      match bs, h with
      | [], _ => rfl
      | [b0], _ => rfl
      | [b0, b1], _ => rfl
      | [b0, b1, b2], _ => rfl
      | [b0, b1, b2, b3], _ => rfl
      | [b0, b1, b2, b3, b4], _ => rfl
      | [b0, b1, b2, b3, b4, b5], _ => rfl
      | b0 :: b1 :: b2 :: b3 :: b4 :: b5 :: b6 :: rest, hh =>
        exact (hh b0 b1 b2 b3 b4 b5 b6 rest rfl).elim
    rw [h1, h2]
    unfold toTextChecked
    rw [if_pos (by simpa using hacc)]

theorem decode_7bit_checked_eq (cd : List Nat) (sn : Bool) :
    decode_7bit_checked cd sn = some (decode_7bit cd sn) :=
  decode7LoopChecked_eq sn cd [] (by simp)

/-- Checked variant of the loop body: surfaces the two partial
operations of the source body, the `struct.unpack` of the next pointer
(two bytes exactly) and the `bytes(...)` constructions inside the
decoder; `none` would mean a raised exception. -/
def followStepChecked (data : List Nat) (totalBlocks : Int) (stopBlocks : Finset Nat)
    (dataOffset : Nat) (st : FollowState) : Option StepRes :=
  if st.current ∈ stopBlocks then some (.halt st)
  else
    let st1 : FollowState :=
      { st with visited := insert st.current st.visited
                blocksUsed := insert st.current st.blocksUsed
                visitList := st.visitList ++ [st.current] }
    let blockOffset := dataOffset + (st1.current - 1) * 128
    if blockOffset + 128 > data.length ∨ (st1.current : Int) > totalBlocks then
      some (.halt st1)
    else
      match unpackLE16opt data (blockOffset + 126),
          decode_7bit_checked ((data.drop blockOffset).take 126) false with
      | some nextBlock, some decoded =>
        if st1.firstBlock = false ∧ is_message_start decoded then some (.halt st1)
        else
          let decoded2 := if st1.firstBlock = false then decoded.dropWhile (· == 0) else decoded
          let st2 : FollowState :=
            { st1 with messageParts := st1.messageParts ++ [decoded2], firstBlock := false }
          if nextBlock = 0 then some (.halt st2)
          else if nextBlock = st2.current then
            let ns := st2.current + 1
            if (ns : Int) ≤ totalBlocks ∧ ns ∉ stopBlocks then
              let nso := dataOffset + (ns - 1) * 128
              if nso + 128 ≤ data.length then
                match decode_7bit_checked ((data.drop nso).take 126) false with
                | some nsDecoded =>
                  if !is_message_start nsDecoded ∧ 10 < (pyStrip nsDecoded).length then
                    some (.next { st2 with current := ns })
                  else some (.halt st2)
                | none => none
              else some (.halt st2)
            else some (.halt st2)
          else if nextBlock ∈ st2.visited then some (.halt st2)
          else some (.next { st2 with current := nextBlock })
      | _, _ => none

theorem unpackLE16opt_eq (data : List Nat) (off2 : Nat) (h : off2 + 2 ≤ data.length) :
    unpackLE16opt data off2 = some (unpackLE16 data off2) := by
  unfold unpackLE16opt unpackLE16
  have hlen : ((data.drop off2).take 2).length = 2 := by
    simp only [List.length_take, List.length_drop]
    omega
  rcases List.length_eq_two.mp hlen with ⟨a, b, he⟩
  rw [he]

theorem followStepChecked_eq (data : List Nat) (tb : Int) (stop : Finset Nat) (off : Nat)
    (st : FollowState) :
    followStepChecked data tb stop off st = some (followStep data tb stop off st) := by
  by_cases hs : st.current ∈ stop
  · simp [followStepChecked, followStep, hs]
  simp only [followStepChecked, followStep, if_neg hs]
  by_cases hob : off + (st.current - 1) * 128 + 128 > data.length ∨ (st.current : Int) > tb
  · rw [if_pos hob, if_pos hob]
  rw [if_neg hob, if_neg hob]
  have hnb : unpackLE16opt data (off + (st.current - 1) * 128 + 126) =
      some (unpackLE16 data (off + (st.current - 1) * 128 + 126)) :=
    unpackLE16opt_eq data _ (by omega)
  simp only [hnb, decode_7bit_checked_eq]
  split_ifs <;> rfl

/-- Checked variant of the follower loop. -/
def followAuxChecked (data : List Nat) (totalBlocks : Int) (stopBlocks : Finset Nat)
    (dataOffset : Nat) : Nat → FollowState → Option FollowState
  | 0, st => some st
  | fuel + 1, st =>
    if st.current ≠ 0 ∧ st.current ∉ st.visited then
      match followStepChecked data totalBlocks stopBlocks dataOffset st with
      | some (.halt st2) => some st2
      | some (.next st2) => followAuxChecked data totalBlocks stopBlocks dataOffset fuel st2
      | none => none
    else some st

/-- Checked variant of `follow_chain_with_tracking`. -/
def follow_chain_checked (data : List Nat) (startBlock : Nat) (totalBlocks : Int)
    (stopBlocks : Finset Nat) (dataOffset : Nat) : Option FollowResult :=
  (followAuxChecked data totalBlocks stopBlocks dataOffset (totalBlocks.toNat + 1)
    (followInit startBlock)).map followFinish

theorem followAuxChecked_eq (data : List Nat) (tb : Int) (stop : Finset Nat) (off : Nat)
    (fuel : Nat) :
    ∀ (st : FollowState), followAuxChecked data tb stop off fuel st =
      some (followAux data tb stop off fuel st) := by
  induction fuel with
  | zero => intro st; rfl
  | succ fuel ih =>
    intro st
    simp only [followAuxChecked, followAux]
    by_cases hg : st.current ≠ 0 ∧ st.current ∉ st.visited
    · rw [if_pos hg, if_pos hg]
      rw [followStepChecked_eq]
      cases followStep data tb stop off st with
      | halt st2 => rfl
      | next st2 => exact ih st2
    · rw [if_neg hg, if_neg hg]

/-- C8: the packed-text codec and the chain follower are total: on
every input, the checked variants, which surface the partial Python
operations (the `bytes(...)` range constraint and the exact-two-byte
`struct.unpack` of the next pointer) as `none`, return `some` of the
plain result; out-of-range references, truncated tails, cycles,
self-references and non-ascii bytes are all handled by explicit
outcomes, never by an exception. -/
theorem claim8_theorem :
    (∀ (cd : List Nat) (sn : Bool), decode_7bit_checked cd sn = some (decode_7bit cd sn)) ∧
    (∀ (data : List Nat) (startBlock : Nat) (tb : Int) (stop : Finset Nat) (off : Nat),
      follow_chain_checked data startBlock tb stop off =
        some (follow_chain_with_tracking data startBlock tb stop off)) := by
  refine ⟨decode_7bit_checked_eq, ?_⟩
  intro data startBlock tb stop off
  unfold follow_chain_checked follow_chain_with_tracking
  rw [followAuxChecked_eq]
  rfl
